import Mathlib

/-!
Verification of the f18 mod-file engine and control-flow lowering engine.

This file contains a shallow embedding of the two subsystems:

* the mod-file writer/reader of `lib/semantics/mod-file.cc` (checksum header,
  touch-free file rewriting, symbol collection order, module-file discovery and
  the reader's error paths), and
* the control-flow lowering of the FIR `afforestation` pass (the linearizer
  producing linear ops from a statement tree, and the CFG constructor turning
  the linear op stream into regions, basic blocks and typed terminators with a
  deferred-fixup queue), together with the `FIRBuilder` of `FIR/builder.h` and
  `BasicBlock::addPred` of the FIR basic-block implementation.

Machine integers (`std::uint64_t`) are modelled as `Nat` with explicit
`% 2 ^ 64`; bytes are `Nat` values; fallible or aborting code
(`SEMANTICS_FAILED`, `WRONG_PATH`, `CHECK`) returns `Except String`.
-/

namespace F18

/-! ## Byte-list utilities -/

/-- `startsWithB p s` is true when the byte list `s` begins with `p`
(the `compare(0, n, magic) == 0` idiom of the C++ source). -/
def startsWithB : List Nat → List Nat → Bool
  | [], _ => true
  | _ :: _, [] => false
  | p :: ps, c :: cs => p == c && startsWithB ps cs

/-- First line of a byte stream: everything before the first newline
(byte 10), as read by `std::getline`. -/
def firstLine (bytes : List Nat) : List Nat :=
  bytes.takeWhile (fun c => c != 10)

/-- The remainder of a byte stream after `std::getline` has consumed the
first line and its terminating newline. -/
def restAfterLine (bytes : List Nat) : List Nat :=
  (bytes.dropWhile (fun c => c != 10)).drop 1

namespace ModFile

/-- The initial characters of a file that identify it as a .mod file:
the bytes of the string literal "!mod$ v1 sum:". -/
def magic : List Nat := [33, 109, 111, 100, 36, 32, 118, 49, 32, 115, 117, 109, 58]

/-! ## Checksum (`CheckSum`, `GetHeader`) -/

/-- The loop body of `CheckSum`: Fowler-Noll-Vo 1a over the byte stream,
`hash ^= c & 0xff; hash *= 0x100000001b3;`, on 64-bit unsigned arithmetic. -/
def fnv1aLoop : List Nat → Nat → Nat
  | [], hash => hash
  | c :: cs, hash => fnv1aLoop cs (((hash ^^^ (c % 256)) * 0x100000001b3) % 2 ^ 64)

/-- The 64-bit FNV-1a hash computed by `CheckSum` before rendering:
initial state `0xcbf29ce484222325`, byte-at-a-time XOR before multiply. -/
def CheckSumHash (bytes : List Nat) : Nat := fnv1aLoop bytes 0xcbf29ce484222325

/-- `digits[n]` for the digit table "0123456789abcdef" (byte values). -/
def hexDigit (n : Nat) : Nat := if n < 10 then 48 + n else 87 + n

/-- The rendering loop of `CheckSum`:
`for (size_t i{16}; hash != 0; hash >>= 4) result[--i] = digits[hash & 0xf];`
where `result` starts as sixteen '0' characters.  The string is modelled as a
function from positions to byte values.  The recursion is on the write index
`i`; since the hash is below `16 ^ 16` the loop's hash always reaches zero
before `i` does, so this agrees with the C++ loop (whose guard is on the
hash alone; decrementing `i` past zero there would be undefined behaviour). -/
def checkSumLoop (hash : Nat) (i : Nat) (result : Nat → Nat) : Nat → Nat :=
  match i with
  | 0 => result
  | i' + 1 =>
    if hash = 0 then result
    else checkSumLoop (hash / 16) i' (Function.update result i' (hexDigit (hash % 16)))

/-- `CheckSum`: the sixteen-character hex rendering of the FNV-1a hash of the
given bytes, starting from a string of sixteen '0's (byte 48). -/
def CheckSum (bytes : List Nat) : List Nat :=
  (List.range 16).map (checkSumLoop (CheckSumHash bytes) 16 (fun _ => 48))

/-- `GetHeader`: the magic string followed by the checksum of the whole body. -/
def GetHeader (all : List Nat) : List Nat := magic ++ CheckSum all

/-! ## Touch-free writing (`WriteFile`, `FileContentsMatch`, `GetFileSize`) -/

/-- Sequentially read bytes from `stream`, comparing with `expected`;
return the rest of the stream on success (each mismatch or premature end of
file makes the C++ loop return false). -/
def readExact : List Nat → List Nat → Option (List Nat)
  | stream, [] => some stream
  | [], _ :: _ => none
  | c :: stream, e :: es => if c = e then readExact stream es else none

/-- `FileContentsMatch`: read and compare the header bytes, then one byte that
must be the newline, then the contents bytes, and finally require end of file
(the final `!stream.get(c)`); any mismatch or premature end of file yields
false. -/
def FileContentsMatch (stream header contents : List Nat) : Bool :=
  match readExact stream header with
  | some (10 :: s2) =>
    match readExact s2 contents with
    | some [] => true
    | _ => false
  | _ => false

/-- `GetFileSize` via `stat`: the byte length, or 0 when the file is absent. -/
def GetFileSize (file : Option (List Nat)) : Nat :=
  match file with
  | some f => f.length
  | none => 0

/-- Result of `WriteFile`: the returned boolean, the resulting on-disk file,
and whether the write (`stream << header << '\n' << contents`) executed. -/
structure WriteResult where
  result : Bool
  file : Option (List Nat)
  wrote : Bool
  deriving DecidableEq, Repr

/-- `WriteFile`: when the file already has exactly the expected size, open it
read-write and compare; if the contents match, return without writing.
Otherwise (after `seekp(0)` or a truncating open) write header, newline and
contents.  The file at the target path is modelled as `Option (List Nat)`. -/
def WriteFile (file : Option (List Nat)) (contents : List Nat) : WriteResult :=
  if GetFileSize file = (GetHeader contents).length + 1 + contents.length then
    if FileContentsMatch (file.getD []) (GetHeader contents) contents then
      { result := true, file := file, wrote := false }
    else
      { result := true, file := some (GetHeader contents ++ 10 :: contents), wrote := true }
  else
    { result := true, file := some (GetHeader contents ++ 10 :: contents), wrote := true }

/-! ## Symbol collection (`CollectSymbols`) -/

/-- The facts about a `semantics::Symbol` that `CollectSymbols` inspects:
its identity (pointer identity in C++), the start offset of its source name
(`name().begin()`), whether its details are `NamelistDetails`, whether it came
from the scope's common-block table, and the `ParentComp` flag. -/
structure Sym where
  id : Nat
  nameBegin : Nat
  isNamelist : Bool
  isCommon : Bool
  parentComp : Bool
  deriving DecidableEq, Repr

/-- A scope as seen by `CollectSymbols`: the symbol-table iteration order and
the common-block table iteration order. -/
structure ScopeSyms where
  symbols : List Sym
  commonBlocks : List Sym
  deriving DecidableEq, Repr

/-- One collection loop: push each symbol not already in the `seen` set
(C++ `std::set<const Symbol *> symbols` insert) onto the result. -/
def collectLoop : List Nat → List Sym → List Sym → List Nat × List Sym
  | seen, sorted, [] => (seen, sorted)
  | seen, sorted, s :: rest =>
    if seen.contains s.id then collectLoop seen sorted rest
    else collectLoop (s.id :: seen) (sorted ++ [s]) rest

/-- The comparator passed to `std::sort`: namelist status first
(`xIsNml < yIsNml`), then source-name start offset. -/
def symLess (x y : Sym) : Bool :=
  if x.isNamelist != y.isNamelist then !x.isNamelist
  else decide (x.nameBegin < y.nameBegin)

/-- The non-strict counterpart of `symLess`, used to run the sort. -/
def symLe (x y : Sym) : Bool := !symLess y x

/-- Insert a symbol into a list sorted by `le`. -/
def insertSorted (le : Sym → Sym → Bool) (x : Sym) : List Sym → List Sym
  | [] => [x]
  | y :: ys => if le x y then x :: y :: ys else y :: insertSorted le x ys

/-- Sort a symbol vector by `le` (modelling `std::sort`; with the
distinct sort keys produced by distinct source offsets the result does not
depend on the sorting algorithm). -/
def sortSyms (le : Sym → Sym → Bool) : List Sym → List Sym
  | [] => []
  | x :: xs => insertSorted le x (sortSyms le xs)

/-- The vector assembled by the two collection loops before sorting: the
scope's symbols (skipping `ParentComp`, de-duplicated by identity) followed by
the common-block symbols (de-duplicated against the same set). -/
def collectedBeforeSort (scope : ScopeSyms) : List Sym :=
  (collectLoop (collectLoop [] [] (scope.symbols.filter (fun s => !s.parentComp))).1
    (collectLoop [] [] (scope.symbols.filter (fun s => !s.parentComp))).2
    scope.commonBlocks).2

/-- `CollectSymbols`: take the scope's symbols (skipping `ParentComp`,
de-duplicating), append the common-block symbols (also de-duplicated against
the same set), then sort the whole vector with the namelist-then-offset
comparator.  Note that the common-block symbols participate in the sort. -/
def CollectSymbols (scope : ScopeSyms) : List Sym :=
  sortSyms symLe (collectedBeforeSort scope)

/-- Check that the common-block symbols form a suffix of the list (what the
specification's "appended after everything else" requires). -/
def commonsLast (l : List Sym) : Bool :=
  (l.dropWhile (fun s => !s.isCommon)).all (fun s => s.isCommon)

/-! ## Mod-file reader (`FindModFile`, `VerifyHeader`, `ModFileReader::Read`)

Names, directories and paths are byte strings (`List Nat`), as in C++. -/

/-- A per-directory diagnostic attached to the "cannot find" error:
either the `strerror(errno)` message for a file that did not open, or the
"Not a valid module file" message. -/
inductive Attachment where
  | openFailure (path : List Nat)
  | notValid (path : List Nat)
  deriving DecidableEq, Repr

/-- The diagnostics the reader can emit. -/
inductive Diag where
  | cannotFind (name ancestorName : List Nat) (attachments : List Attachment)
  | invalidChecksum (name : List Nat)
  | corrupt (name : List Nat)
  deriving DecidableEq, Repr

/-- The file system and search path visible to the reader. -/
structure FileEnv where
  searchDirectories : List (List Nat)
  fs : List (List Nat × List Nat)
  deriving DecidableEq, Repr

/-- A module symbol of the global scope: the scope it owns and its `ModFile`
flag. -/
structure ModSym where
  scopeId : Nat
  modFileFlag : Bool
  deriving DecidableEq, Repr

/-- The reader-visible state: the global scope (name to module symbol) and the
accumulated diagnostics. -/
structure RState where
  global : List (List Nat × ModSym)
  diags : List Diag
  deriving DecidableEq, Repr

/-- An ancestor scope for submodule resolution: its name and its submodule
table (`Scope::FindSubmodule`, modelled from the specification's scope data
model as a name-to-scope mapping). -/
structure AncScope where
  name : List Nat
  submodules : List (List Nat × Nat)
  deriving DecidableEq, Repr

/-- Lowercase one character, as `parser::ToLowerCaseLetter` does. -/
def byteLower (c : Nat) : Nat := if 65 ≤ c ∧ c ≤ 90 then c + 32 else c

/-- Lowercase an identifier, as `PutLower` does character by character. -/
def strLower (s : List Nat) : List Nat := s.map byteLower

/-- `ModFilePath`: `<dir>/<ancestor>-<name>.mod`, with no `dir/` part when the
directory is "." and no `ancestor-` part when the ancestor name is empty
(47 is the slash, 45 the dash, 46 the dot, and [46, 109, 111, 100] is
".mod"). -/
def ModFilePath (dir name ancestorName : List Nat) : List Nat :=
  (if dir = [46] then [] else dir ++ [47]) ++
    (if ancestorName = [] then [] else strLower ancestorName ++ [45]) ++
    strLower name ++ [46, 109, 111, 100]

/-- The directory loop of `FindModFile`.  Returns the accepted path (if any),
the accumulated per-directory attachments, and the log of every path the loop
tried to open. -/
def findLoop (env : FileEnv) (name ancestorName : List Nat) :
    List (List Nat) → List Attachment → List (List Nat) →
    Option (List Nat) × List Attachment × List (List Nat)
  | [], atts, acc => (none, atts, acc)
  | dir :: dirs, atts, acc =>
    match env.fs.lookup (ModFilePath dir name ancestorName) with
    | none =>
      findLoop env name ancestorName dirs
        (atts ++ [.openFailure (ModFilePath dir name ancestorName)])
        (acc ++ [ModFilePath dir name ancestorName])
    | some bytes =>
      if startsWithB magic (firstLine bytes) then
        (some (ModFilePath dir name ancestorName), atts,
          acc ++ [ModFilePath dir name ancestorName])
      else
        findLoop env name ancestorName dirs
          (atts ++ [.notValid (ModFilePath dir name ancestorName)])
          (acc ++ [ModFilePath dir name ancestorName])

/-- Add a diagnostic to the state. -/
def addDiag (st : RState) (d : Diag) : RState :=
  { st with diags := st.diags ++ [d] }

/-- `ModFileReader::FindModFile`: try each search directory in order; accept
the first candidate file whose first line begins with the magic string.  When
no candidate is accepted, say one "Cannot find module file" error carrying the
per-directory attachments. -/
def FindModFile (env : FileEnv) (st : RState) (name ancestorName : List Nat) :
    Option (List Nat) × RState × List (List Nat) :=
  match findLoop env name ancestorName env.searchDirectories [] [] with
  | (some path, _, acc) => (some path, st, acc)
  | (none, atts, acc) => (none, addDiag st (.cannotFind name ancestorName atts), acc)

/-- `VerifyHeader`: reopen the file, read the first line, require the magic
string, and compare the sixteen digits after the magic with the recomputed
checksum of the rest of the stream. -/
def VerifyHeader (env : FileEnv) (path : List Nat) : Bool :=
  match env.fs.lookup path with
  | none => false
  | some bytes =>
    if startsWithB magic (firstLine bytes) then
      ((firstLine bytes).drop magic.length).take 16 == CheckSum (restAfterLine bytes)
    else false

/-- Set the `ModFile` flag on the named symbol of the global scope. -/
def setModFileFlag (g : List (List Nat × ModSym)) (name : List Nat) :
    List (List Nat × ModSym) :=
  g.map fun p => if p.1 = name then (p.1, { p.2 with modFileFlag := true }) else p

/-- `ModFileReader::Read` after the already-loaded checks: find the mod file,
verify its header, parse it, and (for the module case) resolve names into the
global scope, look the module up there, set its `ModFile` flag and return its
scope.  `parse` abstracts `Prescan`/`Parse` plus the message/consumed-file
checks (false means any of them failed), `resolve` abstracts the
`ResolveNames` collaborator's effect on the global scope, and `sub` abstracts
the rest of the submodule path (parent discovery by recursion, resolution and
splicing under the parent scope; that code lies outside the lines modelled
here).  The third result component logs every path opened. -/
def ReadRest (parse : List Nat → Bool)
    (resolve : List (List Nat × ModSym) → List (List Nat × ModSym))
    (sub : List Nat → RState → List (List Nat) → Option Nat × RState × List (List Nat))
    (env : FileEnv) (st : RState) (name : List Nat) (ancestor : Option AncScope) :
    Option Nat × RState × List (List Nat) :=
  match FindModFile env st name
      (match ancestor with | some anc => anc.name | none => []) with
  | (none, st1, acc) => (none, st1, acc)
  | (some path, st1, acc) =>
    if VerifyHeader env path then
      if parse path then
        match ancestor with
        | some _ => sub path st1 (acc ++ [path, path])
        | none =>
          match (resolve st1.global).lookup name with
          | none => (none, { st1 with global := resolve st1.global }, acc ++ [path, path])
          | some sym =>
            (some sym.scopeId,
              { st1 with global := setModFileFlag (resolve st1.global) name },
              acc ++ [path, path])
      else (none, addDiag st1 (.corrupt name), acc ++ [path, path])
    else (none, addDiag st1 (.invalidChecksum name), acc ++ [path])

/-- `ModFileReader::Read`: return the already-loaded scope when present (the
ancestor's submodule for submodule lookups, the global symbol's scope for
module lookups); otherwise run the search/verify/parse/resolve pipeline. -/
def Read (parse : List Nat → Bool)
    (resolve : List (List Nat × ModSym) → List (List Nat × ModSym))
    (sub : List Nat → RState → List (List Nat) → Option Nat × RState × List (List Nat))
    (env : FileEnv) (st : RState) (name : List Nat) (ancestor : Option AncScope) :
    Option Nat × RState × List (List Nat) :=
  match ancestor with
  | some anc =>
    match anc.submodules.lookup name with
    | some scopeId => (some scopeId, st, [])
    | none => ReadRest parse resolve sub env st name ancestor
  | none =>
    match st.global.lookup name with
    | some sym => (some sym.scopeId, st, [])
    | none => ReadRest parse resolve sub env st name ancestor

end ModFile

namespace FIR

/-! ## Linearizer (the `afforestation` pass, stage one)

Labels are `Nat` values (`LinearLabelRef`); `unspecifiedLabel` is `~0u`.
Source labels (`parser::Label`) and construct names are also `Nat`s; construct
names stand for the identity of the `parser::Name` node (the name stack is
searched by pointer equality in the C++ source). -/

/-- `unspecifiedLabel`, i.e. `~0u`. -/
def unspecifiedLabel : Nat := 4294967295

/-- `AnalysisData`: the interning map from source labels to linear labels, the
fresh-label counter of `LinearLabelBuilder`, the construct-name stack
(top first; each entry is `(optional name, exit label, increment label or
unspecified)`), and the `ASSIGN` map from symbols to sets of source labels
(`std::set<parser::Label>`, kept sorted ascending). -/
structure AnalysisData where
  labelMap : List (Nat × Nat)
  counter : Nat
  nameStack : List (Option Nat × Nat × Nat)
  assignMap : List (Nat × List Nat)
  deriving DecidableEq, Repr

def AnalysisData.init : AnalysisData := { labelMap := [], counter := 0, nameStack := [], assignMap := [] }

/-- `BuildNewLabel`: allocate a fresh linear label from the counter. -/
def BuildNewLabel (ad : AnalysisData) : Nat × AnalysisData :=
  (ad.counter, { ad with counter := ad.counter + 1 })

/-- `FetchLabel`: intern a source label, allocating a fresh linear label on
first use and returning the existing one afterwards. -/
def FetchLabel (ad : AnalysisData) (lbl : Nat) : Nat × AnalysisData :=
  match ad.labelMap.lookup lbl with
  | some r => (r, ad)
  | none =>
    (ad.counter,
      { ad with labelMap := ad.labelMap ++ [(lbl, ad.counter)], counter := ad.counter + 1 })

/-- Insert a label into a sorted duplicate-free list (a `std::set`). -/
def setInsert (lbl : Nat) : List Nat → List Nat
  | [] => [lbl]
  | x :: xs =>
    if lbl < x then lbl :: x :: xs
    else if lbl = x then x :: xs
    else x :: setInsert lbl xs

/-- `AddAssign`: record `ASSIGN lbl TO symbol` in the assigned-goto map. -/
def AddAssign (ad : AnalysisData) (symbol lbl : Nat) : AnalysisData :=
  match ad.assignMap.lookup symbol with
  | some s =>
    { ad with assignMap :=
        ad.assignMap.map fun p => if p.1 = symbol then (p.1, setInsert lbl s) else p }
  | none => { ad with assignMap := ad.assignMap ++ [(symbol, [lbl])] }

/-- `GetAssign`: the accumulated source labels for a symbol, in `std::set`
iteration order.  Note that the result holds the *source* label values, not
interned linear labels. -/
def GetAssign (ad : AnalysisData) (symbol : Nat) : List Nat :=
  (ad.assignMap.lookup symbol).getD []

/-- `FindStack`: search the name stack from its top for an entry whose name
field equals the key; `SEMANTICS_FAILED` when absent. -/
def FindStack (stack : List (Option Nat × Nat × Nat)) (key : Nat) :
    Except String (Option Nat × Nat × Nat) :=
  match stack with
  | [] => .error "semantics bug: construct name not on stack"
  | e :: rest => if e.1 = some key then .ok e else FindStack rest key

/-- `NearestEnclosingDoConstruct`: the third component (the increment label)
of the topmost name-stack entry whose third component is specified;
`SEMANTICS_FAILED` when no enclosing loop exists. -/
def NearestEnclosingDoConstruct (ad : AnalysisData) : Except String Nat :=
  match ad.nameStack.find? (fun e => e.2.2 != unspecifiedLabel) with
  | some e => .ok e.2.2
  | none => .error "semantics bug: CYCLE|EXIT not in loop"

/-- The kinds of structured constructs carried by begin/end markers. -/
inductive CKind where
  | associate | blockK | caseK | changeTeam | critical | doK | ifK
  | selectRank | selectType | whereK | forallK
  deriving DecidableEq, Repr

/-- The action statements modelled here (the payload of a
`parser::Statement<parser::ActionStmt>`).  `readStmt` carries the ERR=, EOR=
and END= source labels, 0 standing for an absent specifier exactly as in
`GetErr`/`GetEor`/`GetEnd`. -/
inductive ActStmt where
  | assignment
  | assignStmt (var lbl : Nat)
  | assignedGoto (var : Nat) (lbls : List Nat)
  | gotoStmt (lbl : Nat)
  | cycle (name : Option Nat)
  | exitStmt (name : Option Nat)
  | readStmt (err eor endl : Nat)
  deriving DecidableEq, Repr

/-- The linear operations (`LinearOp`) needed by the claims.  `ioSwitch` is
`LinearSwitchingIO` (next label plus optional ERR=/EOR=/END= linear labels);
`igoto` is `LinearIndirectGoto`; `condGoto` carries, for a counted DO latch,
the construct identity whose condition statement is consulted
(`latchDo = some cid`), and `none` for the variants that evaluate a fresh
expression.  Begin/end markers carry the construct kind, the construct's
identity and, for DO, whether its loop control is a counted `LoopBounds`. -/
inductive LinOp where
  | label (l : Nat)
  | gotoOp (target : Nat)
  | retOp
  | condGoto (t f : Nat) (latchDo : Option Nat)
  | ioSwitch (next : Nat) (err eor endl : Option Nat)
  | igoto (symbol : Nat) (labels : List Nat)
  | action (stmt : ActStmt)
  | beginC (k : CKind) (cid : Nat) (counted : Bool)
  | endC (k : CKind) (cid : Nat) (counted : Bool)
  | doIncrement (cid : Nat)
  | doCompare (cid : Nat)
  deriving DecidableEq, Repr

/-- `threeLabelSpec`: when at least one of ERR=, EOR=, END= is present,
intern each present label, allocate a fresh `next` label, and emit a
`LinearSwitchingIO` followed by the `next` label; otherwise degrade to a
plain action. -/
def threeLabelSpec (err eor endl : Nat) (st : ActStmt) (ad : AnalysisData) :
    List LinOp × AnalysisData :=
  if err ≠ 0 ∨ eor ≠ 0 ∨ endl ≠ 0 then
    let errRef : Option Nat := if err ≠ 0 then some (FetchLabel ad err).1 else none
    let ad1 := if err ≠ 0 then (FetchLabel ad err).2 else ad
    let eorRef : Option Nat := if eor ≠ 0 then some (FetchLabel ad1 eor).1 else none
    let ad2 := if eor ≠ 0 then (FetchLabel ad1 eor).2 else ad1
    let endRef : Option Nat := if endl ≠ 0 then some (FetchLabel ad2 endl).1 else none
    let ad3 := if endl ≠ 0 then (FetchLabel ad2 endl).2 else ad2
    ([.ioSwitch (BuildNewLabel ad3).1 errRef eorRef endRef,
      .label (BuildNewLabel ad3).1], (BuildNewLabel ad3).2)
  else ([.action st], ad)

/-- Intern a list of source labels in order (`toLabelRef`). -/
def toLabelRef (ad : AnalysisData) : List Nat → List Nat × AnalysisData
  | [] => ([], ad)
  | l :: ls =>
    let (r, ad) := FetchLabel ad l
    let (rs, ad) := toLabelRef ad ls
    (r :: rs, ad)

/-- `LinearOp::Build` for the modelled action statements. -/
def buildStmt (st : ActStmt) (ad : AnalysisData) :
    Except String (List LinOp × AnalysisData) :=
  match st with
  | .assignment => .ok ([.action st], ad)
  | .assignStmt v l => .ok ([.action st], AddAssign ad v l)
  | .assignedGoto v ls =>
    let (rs, ad) := toLabelRef ad ls
    .ok ([.igoto v rs], ad)
  | .gotoStmt l =>
    let (r, ad) := FetchLabel ad l
    .ok ([.gotoOp r], ad)
  | .cycle none => do
    let t ← NearestEnclosingDoConstruct ad
    .ok ([.gotoOp t], ad)
  | .cycle (some n) => do
    let e ← FindStack ad.nameStack n
    .ok ([.gotoOp e.2.2], ad)
  | .exitStmt none => do
    let t ← NearestEnclosingDoConstruct ad
    .ok ([.gotoOp t], ad)
  | .exitStmt (some n) => do
    let e ← FindStack ad.nameStack n
    .ok ([.gotoOp e.2.1], ad)
  | .readStmt err eor endl => .ok (threeLabelSpec err eor endl st ad)

/-- The statement tree walked by the linearizer: labelled action statements
and DO constructs (with an optional construct name, a counted-loop flag and a
construct identity standing for the `parser::DoConstruct` node). -/
inductive ExecPart where
  | action (lbl : Option Nat) (st : ActStmt)
  | doC (name : Option Nat) (counted : Bool) (cid : Nat) (body : List ExecPart)

mutual

/-- `ControlFlowAnalyzer`: walk one executable part, emitting linear ops.
For a labelled statement, first emit the interned label
(`Pre(parser::Statement<A>)`); for a DO construct, emit the construct schema
`Begin; Goto backedge; increment: DoIncrement; backedge: DoCompare;
CondGoto(entry, exit); entry: body; Goto increment; End; exit` with the name
stack carrying `(name, exit, increment)` around the body. -/
def walkOne (e : ExecPart) (ad : AnalysisData) :
    Except String (List LinOp × AnalysisData) :=
  match e with
  | .action lbl st => do
    let (pre, ad) := match lbl with
      | some l => (let p := FetchLabel ad l; ([LinOp.label p.1], p.2))
      | none => ([], ad)
    let (ops, ad) ← buildStmt st ad
    .ok (pre ++ ops, ad)
  | .doC name counted cid body => do
    let (backedgeLab, ad) := BuildNewLabel ad
    let (incrementLab, ad) := BuildNewLabel ad
    let (entryLab, ad) := BuildNewLabel ad
    let (exitLab, ad) := BuildNewLabel ad
    let ad := { ad with nameStack := (name, exitLab, incrementLab) :: ad.nameStack }
    let (bodyOps, ad) ← walkList body ad
    let ad := { ad with nameStack := ad.nameStack.tail }
    .ok ([.beginC .doK cid counted, .gotoOp backedgeLab, .label incrementLab,
          .doIncrement cid, .label backedgeLab, .doCompare cid,
          .condGoto entryLab exitLab (if counted then some cid else none),
          .label entryLab] ++ bodyOps ++
          [.gotoOp incrementLab, .endC .doK cid counted, .label exitLab], ad)

/-- Walk a statement list in order, splicing the emitted ops. -/
def walkList (es : List ExecPart) (ad : AnalysisData) :
    Except String (List LinOp × AnalysisData) :=
  match es with
  | [] => .ok ([], ad)
  | e :: rest => do
    let (ops1, ad) ← walkOne e ad
    let (ops2, ad) ← walkList rest ad
    .ok (ops1 ++ ops2, ad)

end

/-! ## IR builder and CFG constructor (`FortranIRLowering::ConstructFIR`)

Blocks and regions are arena-allocated with `Nat` handles.  A block records
its owning region, its statement list and its predecessor list
(`BasicBlock::preds_`).  Statement payloads other than control flow are
collapsed to `IRStmt.action`; the successor lists of the terminator statements
are modelled from the specification (statements.h is not part of the sources
here): a branch's successor is its target, a conditional branch's successors
are its two targets, a switch's successors are its default followed by its
case targets, an indirect branch's successors are its target list, and
return/unreachable have none. -/

/-- IR statements, keeping only what the control-flow claims need. -/
inductive IRStmt where
  | action
  | branch (dest : Nat)
  | condBranch (t f : Nat)
  | switchTerm (default : Nat) (cases : List Nat)
  | indirectBr (targets : List Nat)
  | retStmt
  | unreachableStmt
  deriving DecidableEq, Repr

/-- Whether a statement is of terminator kind. -/
def IRStmt.isTerminator : IRStmt → Bool
  | .action => false
  | _ => true

/-- Successor blocks of a statement (empty for non-terminators). -/
def IRStmt.succBlocks : IRStmt → List Nat
  | .action => []
  | .branch d => [d]
  | .condBranch t f => [t, f]
  | .switchTerm d cs => d :: cs
  | .indirectBr ts => ts
  | .retStmt => []
  | .unreachableStmt => []

/-- A basic block: owning region, ordered statement list, predecessor list. -/
structure Block where
  region : Nat
  stmts : List IRStmt
  preds : List Nat
  deriving DecidableEq, Repr

/-- `BasicBlock::terminator()`: the last statement when it is of terminator
kind. -/
def Block.terminator (b : Block) : Option IRStmt :=
  match b.stmts.getLast? with
  | some s => if s.isTerminator then some s else none
  | none => none

/-- The successor list of a block's terminator (empty when unterminated). -/
def Block.termSucc (b : Block) : List Nat :=
  match b.terminator with
  | some s => s.succBlocks
  | none => []

/-- Whether the block already carries its terminator. -/
def Block.terminated (b : Block) : Bool :=
  b.terminator.isSome

/-- A deferred control-flow fixup (the closures of
`controlFlowEdgesToAdd_`), each remembering the snapshot insertion block.
`igotoFixme` is the deferred assigned-goto closure, which ignores the labels
and emits an indirect branch with an empty target list. -/
inductive Closure where
  | branchFix (block : Nat) (dest : Nat)
  | condFix (block : Nat) (t f : Nat)
  | switchFix (block : Nat) (default : Nat) (labels : List Nat)
  | igotoFixme (block : Nat)
  deriving DecidableEq, Repr

/-- The snapshot block of a closure. -/
def Closure.block : Closure → Nat
  | .branchFix b _ => b
  | .condFix b _ _ => b
  | .switchFix b _ _ => b
  | .igotoFixme b => b

/-- The builder/lowering state: the block arena, the region arena (each
region records its enclosing region, none for the procedure's root region),
the cursor region and cursor block of `FIRBuilder`, the label-to-block map,
the deferred fixup queue, and the set of construct identities with an active
DO context (`doMap_`). -/
structure FState where
  blocks : List (Nat × Block)
  nextBlock : Nat
  regions : List (Nat × Option Nat)
  nextRegion : Nat
  curRegion : Nat
  insertPt : Option Nat
  blockMap : List (Nat × Nat)
  deferred : List Closure
  doMap : List Nat
  deriving DecidableEq, Repr

/-- The initial state of `ProcessRoutine`: one root region holding one empty
block, which is the builder's initial insertion point. -/
def FState.init : FState :=
  { blocks := [(0, { region := 0, stmts := [], preds := [] })]
    nextBlock := 1
    regions := [(0, none)]
    nextRegion := 1
    curRegion := 0
    insertPt := some 0
    blockMap := []
    deferred := []
    doMap := [] }

/-- Update the block stored under a handle. -/
def updBlock (bs : List (Nat × Block)) (id : Nat) (f : Block → Block) :
    List (Nat × Block) :=
  bs.map fun p => if p.1 = id then (p.1, f p.2) else p

/-- `BasicBlock::Create`: allocate a fresh block in the given region. -/
def createBlock (s : FState) (region : Nat) : Nat × FState :=
  (s.nextBlock,
    { s with
        blocks := s.blocks ++ [(s.nextBlock, { region := region, stmts := [], preds := [] })]
        nextBlock := s.nextBlock + 1 })

/-- `BasicBlock::addPred`: append a predecessor unless already present. -/
def addPred (bs : List (Nat × Block)) (b : Nat) (p : Nat) : List (Nat × Block) :=
  updBlock bs b fun blk =>
    if p ∈ blk.preds then blk else { blk with preds := blk.preds ++ [p] }

/-- `FIRBuilder::Insert`: `CHECK(GetInsertionPoint())`, then append the
statement to the cursor block. -/
def insertStmt (s : FState) (st : IRStmt) : Except String FState :=
  match s.insertPt with
  | none => .error "CHECK failed: no insertion point"
  | some b =>
    .ok { s with blocks := updBlock s.blocks b fun blk => { blk with stmts := blk.stmts ++ [st] } }

/-- `FIRBuilder::InsertTerminator`: insert the statement, then add the cursor
block as a predecessor of each of the statement's successor blocks. -/
def insertTerminator (s : FState) (st : IRStmt) : Except String FState :=
  match s.insertPt with
  | none => .error "CHECK failed: no insertion point"
  | some b => do
    let s ← insertStmt s st
    .ok { s with blocks := st.succBlocks.foldl (fun bs d => addPred bs d b) s.blocks }

/-- `FIRBuilder::SetInsertionPoint`: set the cursor block, and with it the
cursor region (`bb->getParent()`). -/
def setInsertionPoint (s : FState) (b : Nat) : Except String FState :=
  match s.blocks.lookup b with
  | none => .error "dangling block handle"
  | some blk => .ok { s with insertPt := some b, curRegion := blk.region }

/-- `FIRBuilder::ClearInsertionPoint`. -/
def clearInsertionPoint (s : FState) : FState := { s with insertPt := none }

/-- `FortranIRLowering::CheckInsertionPoint`: if the cursor is cleared, open a
fresh block in the current region. -/
def checkInsertionPoint (s : FState) : FState :=
  match s.insertPt with
  | some _ => s
  | none =>
    let (nb, s) := createBlock s s.curRegion
    { s with insertPt := some nb }

/-- `FortranIRLowering::EnterRegion`: create a child region of the current
region (its enclosing link modelled from the specification's region tree,
region.h being absent from the sources here), create a fresh block in it,
branch the previous cursor block (opened on demand) to it, and move the
cursor there. -/
def enterRegion (s : FState) : Except String FState := do
  let newRegion := s.nextRegion
  let s := { s with
      regions := s.regions ++ [(newRegion, some s.curRegion)]
      nextRegion := s.nextRegion + 1 }
  let (nb, s) := createBlock s newRegion
  let s := checkInsertionPoint s
  let s ← insertTerminator s (.branch nb)
  setInsertionPoint s nb

/-- `FortranIRLowering::ExitRegion`: pop the cursor region to its enclosing
region. -/
def exitRegion (s : FState) : Except String FState :=
  match s.regions.lookup s.curRegion with
  | none => .error "dangling region handle"
  | some none => .error "no enclosing region"
  | some (some r) => .ok { s with curRegion := r }

/-- `AddOrQueueBranch`: branch now when the target label already has a block,
otherwise enqueue a fixup closure remembering the cursor block. -/
def addOrQueueBranch (s : FState) (dest : Nat) : Except String FState :=
  match s.blockMap.lookup dest with
  | some b => insertTerminator s (.branch b)
  | none =>
    match s.insertPt with
    | none => .error "queued branch with no insertion point"
    | some here => .ok { s with deferred := s.deferred ++ [.branchFix here dest] }

/-- `AddOrQueueCGoto`: a conditional branch, deferred unless both labels are
already bound. -/
def addOrQueueCGoto (s : FState) (t f : Nat) : Except String FState :=
  match s.blockMap.lookup t, s.blockMap.lookup f with
  | some tb, some fb => insertTerminator s (.condBranch tb fb)
  | _, _ =>
    match s.insertPt with
    | none => .error "queued conditional branch with no insertion point"
    | some here => .ok { s with deferred := s.deferred ++ [.condFix here t f] }

/-- Look up each label of a list in the label-to-block map, failing when any
is unbound. -/
def lookupAll (m : List (Nat × Nat)) : List Nat → Option (List Nat)
  | [] => some []
  | l :: ls => do
    let b ← m.lookup l
    let bs ← lookupAll m ls
    some (b :: bs)

/-- `AddOrQueueSwitch`: when the default label and every case label are bound,
emit the switch terminator; otherwise enqueue a fixup closure. -/
def addOrQueueSwitch (s : FState) (defaultLabel : Nat) (labels : List Nat) :
    Except String FState :=
  match s.blockMap.lookup defaultLabel, lookupAll s.blockMap labels with
  | some db, some cs => insertTerminator s (.switchTerm db cs)
  | _, _ =>
    match s.insertPt with
    | none => .error "queued switch with no insertion point"
    | some here => .ok { s with deferred := s.deferred ++ [.switchFix here defaultLabel labels] }

/-- `AddOrQueueIGoto`: when the statement carried no explicit label list, use
the accumulated `ASSIGN` set for the symbol (these are *source* label values);
when every resulting label is bound, emit the indirect branch, otherwise
enqueue the deferred closure, which will emit an indirect branch with an empty
target list (the FIXME path of the C++ source). -/
def addOrQueueIGoto (s : FState) (ad : AnalysisData) (symbol : Nat)
    (labels : List Nat) : Except String FState :=
  let useLabels := if labels.isEmpty then GetAssign ad symbol else labels
  match lookupAll s.blockMap useLabels with
  | some bs => insertTerminator s (.indirectBr bs)
  | none =>
    match s.insertPt with
    | none => .error "queued indirect branch with no insertion point"
    | some here => .ok { s with deferred := s.deferred ++ [.igotoFixme here] }

/-- Insert `n` collapsed non-terminator statements. -/
def insertActions (s : FState) : Nat → Except String FState
  | 0 => .ok s
  | n + 1 => do
    let s ← insertStmt s .action
    insertActions s n

/-- `handleActionStatement` for the modelled payloads.  Statements the
linearizer is required to consume (`CYCLE`, `EXIT`, `GOTO`, assigned GOTO)
hit `WRONG_PATH`.  An `ASSIGN` statement stores the block bound to the
label's interned linear label: the map access `blockMap_.find(...)->second`
dereferences the end iterator when the label has no block yet, modelled as a
hard error. -/
def handleAction (s : FState) (ad : AnalysisData) (st : ActStmt) :
    Except String (FState × AnalysisData) :=
  match st with
  | .assignment => do
    let s ← insertActions s 3
    .ok (s, ad)
  | .readStmt _ _ _ => do
    let s ← insertStmt s .action
    .ok (s, ad)
  | .assignStmt _ lbl => do
    let s ← insertStmt s .action
    let (r, ad) := FetchLabel ad lbl
    match s.blockMap.lookup r with
    | none => .error "map.find past the end: ASSIGN label has no block"
    | some _ => do
      let s ← insertStmt s .action
      .ok (s, ad)
  | _ => .error "control should not reach here"

/-- `InitiateConstruct` and region entry for a `LinearBeginConstruct`, per
construct kind: BLOCK, ASSOCIATE, CHANGE TEAM, DO, SELECT RANK and SELECT TYPE
enter a child region; ASSOCIATE stores its association (modelled with one
binding), SELECT CASE / IF / WHERE evaluate their selector or condition, and a
counted DO evaluates its variable address, bounds and step, stores the initial
value and pushes the DO context. -/
def processBegin (s : FState) (k : CKind) (cid : Nat) (counted : Bool) :
    Except String FState :=
  match k with
  | .associate => do
    let s ← enterRegion s
    insertActions s 3
  | .blockK => enterRegion s
  | .caseK => insertActions s 1
  | .changeTeam => enterRegion s
  | .critical => .ok s
  | .doK => do
    let s ← enterRegion s
    if counted then do
      let s ← insertActions s 5
      .ok { s with doMap := cid :: s.doMap }
    else .ok s
  | .ifK => insertActions s 1
  | .selectRank => enterRegion s
  | .selectType => enterRegion s
  | .whereK => insertActions s 1
  | .forallK => .ok s

/-- The `LinearEndConstruct` visitor: BLOCK, ASSOCIATE, CHANGE TEAM and
SELECT TYPE exit their region; DO pops its context (when counted) and exits
its region; every other kind—including SELECT RANK—falls to the default
visitor and does nothing. -/
def processEnd (s : FState) (k : CKind) (cid : Nat) (counted : Bool) :
    Except String FState :=
  match k with
  | .blockK => exitRegion s
  | .associate => exitRegion s
  | .changeTeam => exitRegion s
  | .selectType => exitRegion s
  | .doK => do
    let s := if counted then { s with doMap := s.doMap.erase cid } else s
    exitRegion s
  | _ => .ok s

/-- Process one linear op other than a begin-construct marker. -/
def processOp (s : FState) (ad : AnalysisData) (op : LinOp) :
    Except String (FState × AnalysisData) :=
  match op with
  | .label l => do
    let (nb, s) := createBlock s s.curRegion
    let s := { s with
        blockMap := if (s.blockMap.lookup l).isSome then s.blockMap else s.blockMap ++ [(l, nb)] }
    let s ← match s.insertPt with
      | some _ => insertTerminator s (.branch nb)
      | none => pure s
    let s ← setInsertionPoint s nb
    .ok (s, ad)
  | .gotoOp target => do
    let s := checkInsertionPoint s
    let s ← addOrQueueBranch s target
    .ok (clearInsertionPoint s, ad)
  | .retOp => do
    let s := checkInsertionPoint s
    let s ← insertStmt s .action
    let s ← insertTerminator s .retStmt
    .ok (clearInsertionPoint s, ad)
  | .condGoto t f latchDo => do
    let s := checkInsertionPoint s
    let s ← match latchDo with
      | some cid =>
        if cid ∈ s.doMap then pure s
        else .error "map.find past the end: DO context not present"
      | none => insertStmt s .action
    let s ← addOrQueueCGoto s t f
    .ok (clearInsertionPoint s, ad)
  | .ioSwitch next _ _ _ => do
    let s := checkInsertionPoint s
    let s ← addOrQueueSwitch s next []
    .ok (clearInsertionPoint s, ad)
  | .igoto symbol labels => do
    let s := checkInsertionPoint s
    let s ← addOrQueueIGoto s ad symbol labels
    .ok (clearInsertionPoint s, ad)
  | .action st => do
    let s := checkInsertionPoint s
    handleAction s ad st
  | .doIncrement cid => do
    let s := checkInsertionPoint s
    if cid ∈ s.doMap then do
      let s ← insertActions s 2
      .ok (s, ad)
    else .error "CHECK failed: DO context not present"
  | .doCompare cid => do
    let s := checkInsertionPoint s
    if cid ∈ s.doMap then do
      let s ← insertActions s 2
      .ok (s, ad)
    else .error "CHECK failed: DO context not present"
  | .beginC _ _ _ => .error "begin-construct must be handled with its lookahead"
  | .endC k cid counted => do
    let s ← processEnd s k cid counted
    .ok (s, ad)

/-- `ConstructFIR`: process the linear op list in order.  A begin-construct op
peeks at the next op; when it is a label, that label is bound to the first
block of the freshly entered construct (the cursor block) and consumed. -/
def constructFIR (s : FState) (ad : AnalysisData) :
    List LinOp → Except String (FState × AnalysisData)
  | [] => .ok (s, ad)
  | .beginC k cid counted :: .label l :: rest2 => do
    let s ← processBegin s k cid counted
    match s.insertPt with
    | none => .error "label bound to null insertion point"
    | some b =>
      constructFIR { s with
        blockMap :=
          if (s.blockMap.lookup l).isSome then s.blockMap
          else s.blockMap ++ [(l, b)] } ad rest2
  | .beginC k cid counted :: op2 :: rest2 => do
    let s ← processBegin s k cid counted
    constructFIR s ad (op2 :: rest2)
  | [.beginC _ _ _] => .error "dereference past the end of the op list"
  | op :: rest => do
    let (s, ad) ← processOp s ad op
    constructFIR s ad rest

/-- Replay one deferred fixup against the completed label map. -/
def replayClosure (s : FState) (c : Closure) : Except String FState :=
  match c with
  | .branchFix block dest => do
    let s ← setInsertionPoint s block
    match s.blockMap.lookup dest with
    | none => .error "CHECK failed: deferred branch target unbound"
    | some b => insertTerminator s (.branch b)
  | .condFix block t f => do
    let s ← setInsertionPoint s block
    match s.blockMap.lookup t, s.blockMap.lookup f with
    | some tb, some fb => insertTerminator s (.condBranch tb fb)
    | _, _ => .error "CHECK failed: deferred conditional target unbound"
  | .switchFix block defaultLabel labels => do
    let s ← setInsertionPoint s block
    match s.blockMap.lookup defaultLabel, lookupAll s.blockMap labels with
    | some db, some cs => insertTerminator s (.switchTerm db cs)
    | _, _ => .error "map.find past the end: deferred switch target unbound"
  | .igotoFixme block => do
    let s ← setInsertionPoint s block
    insertTerminator s (.indirectBr [])

/-- `DrawRemainingArcs`: replay every queued fixup in order. -/
def drawRemainingArcs (s : FState) : Except String FState :=
  go s.deferred { s with deferred := [] }
where
  go : List Closure → FState → Except String FState
    | [], s => .ok s
    | c :: cs, s => do
      let s ← replayClosure s c
      go cs s

/-- The whole per-procedure pipeline of `ProcessRoutine`: linearize the
statement tree, construct the FIR block graph, then replay the deferred
fixups.  The final analysis data is returned alongside the state. -/
def lowerProcedure (prog : List ExecPart) :
    Except String (FState × AnalysisData) := do
  let (ops, ad) ← walkList prog AnalysisData.init
  let (s, ad) ← constructFIR FState.init ad ops
  let s ← drawRemainingArcs s
  .ok (s, ad)

/-! ## Claim-side predicates and demonstration inputs -/

/-- Well-formedness of the label-interning state: every interned linear label
is below the allocation counter (true of every state the linearizer builds
from `AnalysisData.init`). -/
def AdWf (ad : AnalysisData) : Prop := ∀ p ∈ ad.labelMap, p.2 < ad.counter

/-- Predecessor lists are the inverse of terminator successors: for every two
blocks of the procedure, the second appears among the successor blocks of the
first's terminator exactly when the first appears in the second's predecessor
list. -/
def predsConsistent (s : FState) : Prop :=
  ∀ p ∈ s.blocks, ∀ q ∈ s.blocks, (q.1 ∈ p.2.termSucc ↔ p.1 ∈ q.2.preds)

/-- No predecessor list contains a duplicate entry. -/
def noDupPreds (s : FState) : Prop :=
  ∀ p ∈ s.blocks, p.2.preds.Nodup

/-- The scenario of S5: `read(u,*,err=10,eor=20,end=30) x` followed by the
three statements labelled 10, 20 and 30. -/
def readThreeLabels : List ExecPart :=
  [.action none (.readStmt 10 20 30),
   .action (some 10) .assignment,
   .action (some 20) .assignment,
   .action (some 30) .assignment]

/-- An unnamed EXIT as the body of an anonymous DO construct. -/
def exitInDo : List ExecPart :=
  [.doC none false 0 [.action none (.exitStmt none)]]

/-- The same DO construct with an unnamed CYCLE instead of the EXIT. -/
def cycleInDo : List ExecPart :=
  [.doC none false 0 [.action none (.cycle none)]]

/-- The scenario of S6 with the two target statements placed first:
`100 x=.; 200 x=.; assign 100 to lbl; assign 200 to lbl; goto lbl`
(symbol 5 stands for `lbl`). -/
def assignedGotoProg : List ExecPart :=
  [.action (some 100) .assignment,
   .action (some 200) .assignment,
   .action none (.assignStmt 5 100),
   .action none (.assignStmt 5 200),
   .action none (.assignedGoto 5 [])]

/-- A SELECT RANK construct's begin/end marker pair, as the linearizer emits
them around the construct's body. -/
def selectRankOps : List LinOp := [.beginC .selectRank 7 false, .endC .selectRank 7 false]

/-- The same marker pair for SELECT TYPE. -/
def selectTypeOps : List LinOp := [.beginC .selectType 7 false, .endC .selectType 7 false]

/-- The effect of `addPred` on one block: append the predecessor unless
already present. -/
def predAdd (b : Nat) (blk : Block) : Block :=
  if b ∈ blk.preds then blk else { blk with preds := blk.preds ++ [b] }

/-- The entrywise effect of `InsertTerminator` on the block arena: the cursor
block receives the statement at its end, and each block named among the
statement's successors receives the cursor block as a predecessor. -/
def tG (b : Nat) (st : IRStmt) (k : Nat) (v : Block) : Block :=
  let v1 := if k = b then { v with stmts := v.stmts ++ [st] } else v
  if k ∈ st.succBlocks then predAdd b v1 else v1

/-- A block handle that resolves to a block not yet carrying a terminator. -/
def unterminatedAt (s : FState) (b : Nat) : Prop :=
  ∃ blk, s.blocks.lookup b = some blk ∧ blk.terminated = false

/-- The block-arena invariant maintained by the lowering: handles are below
the allocation counter and duplicate-free, predecessor lists are the inverse
of terminator successors and duplicate-free, every successor, predecessor and
label-bound block exists. -/
structure BInv (s : FState) : Prop where
  keysLt : ∀ p ∈ s.blocks, p.1 < s.nextBlock
  keysNodup : (s.blocks.map Prod.fst).Nodup
  consistent : predsConsistent s
  predsNodup : noDupPreds s
  succKeys : ∀ p ∈ s.blocks, ∀ d ∈ p.2.termSucc, d ∈ s.blocks.map Prod.fst
  predKeys : ∀ p ∈ s.blocks, ∀ d ∈ p.2.preds, d ∈ s.blocks.map Prod.fst
  mapKeys : ∀ q ∈ s.blockMap, q.2 ∈ s.blocks.map Prod.fst

/-- The invariant together with the deferred-fixup discipline: every queued
closure snapshots a distinct, still unterminated block. -/
structure SInv (s : FState) : Prop where
  toBInv : BInv s
  closuresOk : ∀ c ∈ s.deferred, unterminatedAt s c.block
  closuresNodup : (s.deferred.map Closure.block).Nodup

/-- The construction-phase invariant: additionally the cursor block, when
set, is unterminated and is not snapshotted by any queued closure. -/
structure CInv (s : FState) : Prop where
  toSInv : SInv s
  curOk : ∀ b, s.insertPt = some b → unterminatedAt s b
  curFresh : ∀ b, s.insertPt = some b → ∀ c ∈ s.deferred, c.block ≠ b

/-- A one-statement procedure used to witness the well-formedness theorem. -/
def tinyProc : List ExecPart := [.action none .assignment]

end FIR

namespace ModFile

/-! ## Claim-side definitions for the checksum header -/

/-- The number of significant hexadecimal digits of a natural number. -/
def nibLen (n : Nat) : Nat :=
  if h : n = 0 then 0 else nibLen (n / 16) + 1
termination_by n
decreasing_by exact Nat.div_lt_self (Nat.pos_of_ne_zero h) (by decide)

/-- The specification's rendering of a 64-bit hash: sixteen hexadecimal
digits, most significant first, zero-padded on the left (digit `j` is the
coefficient of `16 ^ (15 - j)`). -/
def hexPad16 (n : Nat) : List Nat :=
  (List.range 16).map fun j => hexDigit (n / 16 ^ (15 - j) % 16)

/-- Byte values of the lowercase hexadecimal digit characters. -/
def isLowerHexByte (d : Nat) : Bool :=
  (48 ≤ d && d ≤ 57) || (97 ≤ d && d ≤ 102)

/-- The specification's description of the path search: scan the directories
in order and accept the first candidate path whose file opens and whose first
line begins with the magic string. -/
def acceptsDir (env : FileEnv) (name ancestorName : List Nat) (dir : List Nat) :
    Option (List Nat) :=
  match env.fs.lookup (ModFilePath dir name ancestorName) with
  | some bytes =>
    if startsWithB magic (firstLine bytes) then some (ModFilePath dir name ancestorName)
    else none
  | none => none

def firstAccepted (env : FileEnv) (name ancestorName : List Nat) : Option (List Nat) :=
  env.searchDirectories.findSome? (acceptsDir env name ancestorName)

/-- The attachments accumulated over the whole directory list. -/
def findAtts (env : FileEnv) (name ancestorName : List Nat) : List Attachment :=
  (findLoop env name ancestorName env.searchDirectories [] []).2.1

/-- Reader witness data: a file for module name "m" (byte 109) in directory
"." whose sixteen header digits are all '0' — not the checksum of its empty
body. -/
def c7bytes : List Nat := magic ++ List.replicate 16 48 ++ [10]

def c7env : FileEnv :=
  { searchDirectories := [[46]], fs := [(ModFilePath [46] [109] [], c7bytes)] }

/-- Reader witness data for a successful load: a well-formed file for module
name "m" whose body is the single byte 109, with a correct checksum. -/
def c10bytes : List Nat := magic ++ CheckSum [109] ++ 10 :: [109]

def c10env : FileEnv :=
  { searchDirectories := [[46]], fs := [(ModFilePath [46] [109] [], c10bytes)] }

/-- A name-resolution collaborator that adds the module symbol for "m" with
scope 3 to the global scope. -/
def c10resolve (g : List (List Nat × ModSym)) : List (List Nat × ModSym) :=
  g ++ [([109], { scopeId := 3, modFileFlag := false })]

/-- A scope holding one namelist symbol whose source name begins at offset 50
and one common block whose source name begins at offset 5. -/
def cexScope : ScopeSyms :=
  { symbols :=
      [{ id := 0, nameBegin := 50, isNamelist := true, isCommon := false, parentComp := false }]
    commonBlocks :=
      [{ id := 1, nameBegin := 5, isNamelist := false, isCommon := true, parentComp := false }] }

end ModFile

namespace ModFile

/-! ## Checksum lemmas -/

theorem fnv1aLoop_lt (bytes : List Nat) :
    ∀ hash, hash < 2 ^ 64 → fnv1aLoop bytes hash < 2 ^ 64 := by
  induction bytes with
  | nil => intro hash h; simpa [fnv1aLoop] using h
  | cons c cs ih =>
    intro hash _
    exact ih _ (Nat.mod_lt _ (by norm_num))

theorem CheckSumHash_lt (bytes : List Nat) : CheckSumHash bytes < 2 ^ 64 :=
  fnv1aLoop_lt bytes _ (by norm_num)

theorem nibLen_zero : nibLen 0 = 0 := by
  rw [nibLen]
  simp

theorem nibLen_succ {n : Nat} (h : n ≠ 0) : nibLen n = nibLen (n / 16) + 1 := by
  rw [nibLen]
  simp [h]

theorem lt_pow_nibLen (n : Nat) : n < 16 ^ nibLen n := by
  induction n using Nat.strong_induction_on with
  | _ n ih =>
    by_cases h : n = 0
    · subst h; rw [nibLen_zero]; decide
    · rw [nibLen_succ h, pow_succ]
      have h1 : n / 16 < n := Nat.div_lt_self (Nat.pos_of_ne_zero h) (by decide)
      exact (Nat.div_lt_iff_lt_mul (by decide)).mp (ih _ h1)

/-- The rendering loop writes, for every position below `i` reached by a
significant digit of the hash, that digit of the hash, and leaves the rest of
the string alone. -/
theorem checkSumLoop_eq : ∀ (i hash : Nat) (res : Nat → Nat), hash < 16 ^ i →
    checkSumLoop hash i res = fun j =>
      if j < i ∧ i ≤ j + nibLen hash then hexDigit (hash / 16 ^ (i - 1 - j) % 16)
      else res j := by
  intro i
  induction i with
  | zero =>
    intro hash res hlt
    rw [pow_zero] at hlt
    funext j
    have hc : ¬(j < 0 ∧ 0 ≤ j + nibLen hash) := by omega
    rw [if_neg hc]
    rfl
  | succ i' ih =>
    intro hash res hlt
    unfold checkSumLoop
    by_cases h0 : hash = 0
    · subst h0
      rw [if_pos rfl]
      funext j
      have hc : ¬(j < i' + 1 ∧ i' + 1 ≤ j + nibLen 0) := by rw [nibLen_zero]; omega
      rw [if_neg hc]
    · rw [if_neg h0]
      have hdivlt : hash / 16 < 16 ^ i' := by
        apply (Nat.div_lt_iff_lt_mul (by decide)).mpr
        calc hash < 16 ^ (i' + 1) := hlt
          _ = 16 ^ i' * 16 := by rw [pow_succ]
      rw [ih _ _ hdivlt]
      funext j
      have hnl : nibLen hash = nibLen (hash / 16) + 1 := nibLen_succ h0
      by_cases hc : j < i' ∧ i' ≤ j + nibLen (hash / 16)
      · have houter : j < i' + 1 ∧ i' + 1 ≤ j + nibLen hash := by omega
        rw [if_pos hc, if_pos houter]
        have he : i' - 1 - j + 1 = i' + 1 - 1 - j := by omega
        rw [Nat.div_div_eq_div_mul, ← pow_succ', he]
      · rw [if_neg hc]
        by_cases hj : j = i'
        · rw [hj, Function.update_same]
          have houter : i' < i' + 1 ∧ i' + 1 ≤ i' + nibLen hash := by omega
          rw [if_pos houter]
          have hz : i' + 1 - 1 - i' = 0 := by omega
          rw [hz, pow_zero, Nat.div_one]
        · rw [Function.update_noteq hj]
          have houter : ¬(j < i' + 1 ∧ i' + 1 ≤ j + nibLen hash) := by
            rintro ⟨hji, hile⟩
            have hjlt : j < i' := by omega
            have : ¬(i' ≤ j + nibLen (hash / 16)) := fun hcon => hc ⟨hjlt, hcon⟩
            omega
          rw [if_neg houter]

theorem CheckSum_eq_hexPad16 (bytes : List Nat) :
    CheckSum bytes = hexPad16 (CheckSumHash bytes) := by
  unfold CheckSum hexPad16
  have hlt : CheckSumHash bytes < 16 ^ 16 := by
    have := CheckSumHash_lt bytes
    calc CheckSumHash bytes < 2 ^ 64 := this
      _ = 16 ^ 16 := by norm_num
  rw [checkSumLoop_eq 16 (CheckSumHash bytes) (fun _ => 48) hlt]
  apply List.map_congr_left
  intro j hj
  rw [List.mem_range] at hj
  by_cases hcond : j < 16 ∧ 16 ≤ j + nibLen (CheckSumHash bytes)
  · rw [if_pos hcond]
  · rw [if_neg hcond]
    have h1 : nibLen (CheckSumHash bytes) < 16 - j := by omega
    have h2 : CheckSumHash bytes < 16 ^ (15 - j) :=
      lt_of_lt_of_le (lt_pow_nibLen _) (Nat.pow_le_pow_right (by decide) (by omega))
    rw [Nat.div_eq_of_lt h2]
    simp [hexDigit]

/-! ## File matching lemmas -/

theorem readExact_some {e : List Nat} : ∀ {s r : List Nat},
    readExact s e = some r ↔ s = e ++ r := by
  induction e with
  | nil =>
    intro s r
    simp [readExact]
  | cons x xs ih =>
    intro s r
    cases s with
    | nil => simp [readExact]
    | cons c cs =>
      by_cases hx : c = x
      · subst hx
        simp [readExact, ih]
      · simp [readExact, hx, Ne.symm hx]

theorem FileContentsMatch_iff {f header contents : List Nat} :
    FileContentsMatch f header contents = true ↔ f = header ++ 10 :: contents := by
  unfold FileContentsMatch
  constructor
  · intro h
    split at h
    · rename_i s2 h1
      split at h
      · rename_i h2
        rw [readExact_some] at h1 h2
        subst h2
        simpa using h1
      · exact Bool.noConfusion h
    · exact Bool.noConfusion h
  · intro h
    subst h
    have h1 : readExact (header ++ 10 :: contents) header = some (10 :: contents) :=
      readExact_some.mpr rfl
    have h2 : readExact contents contents = some [] :=
      readExact_some.mpr (by simp)
    simp [h1, h2]

theorem GetHeader_length (c : List Nat) : (GetHeader c).length = 29 := by
  unfold GetHeader CheckSum magic
  simp

/-- `WriteFile` on a file that already holds exactly what would be written:
the check succeeds and nothing is written. -/
theorem WriteFile_match (c : List Nat) (f : Option (List Nat))
    (h : f = some (GetHeader c ++ 10 :: c)) :
    WriteFile f c = { result := true, file := f, wrote := false } := by
  subst h
  unfold WriteFile
  rw [if_pos (by simp [GetFileSize]; omega)]
  rw [if_pos (by rw [Option.getD_some]; exact FileContentsMatch_iff.mpr rfl)]

/-- Whatever the previous file contents, after one `WriteFile` the on-disk
file holds exactly header, newline, contents. -/
theorem WriteFile_file (f : Option (List Nat)) (c : List Nat) :
    (WriteFile f c).file = some (GetHeader c ++ 10 :: c) := by
  unfold WriteFile
  by_cases h1 : GetFileSize f = (GetHeader c).length + 1 + c.length
  · rw [if_pos h1]
    by_cases h2 : FileContentsMatch (f.getD []) (GetHeader c) c = true
    · rw [if_pos h2]
      rcases f with _ | g
      · exfalso
        simp [GetFileSize] at h1
        have := GetHeader_length c
        omega
      · rw [Option.getD_some] at h2
        simp [FileContentsMatch_iff.mp h2]
    · rw [if_neg h2]
  · rw [if_neg h1]

/-! ## Sorting lemmas for `CollectSymbols` -/

theorem insertSorted_perm (le : Sym → Sym → Bool) (x : Sym) :
    ∀ l : List Sym, List.Perm (insertSorted le x l) (x :: l) := by
  intro l
  induction l with
  | nil => exact List.Perm.refl _
  | cons y ys ih =>
    unfold insertSorted
    by_cases h : le x y = true
    · rw [if_pos h]
    · rw [if_neg h]
      exact List.Perm.trans (ih.cons y) (List.Perm.swap x y ys)

theorem sortSyms_perm (le : Sym → Sym → Bool) :
    ∀ l : List Sym, List.Perm (sortSyms le l) l := by
  intro l
  induction l with
  | nil => exact List.Perm.refl _
  | cons x xs ih =>
    exact List.Perm.trans (insertSorted_perm le x _) (ih.cons x)

theorem symLe_total (x y : Sym) : symLe x y = true ∨ symLe y x = true := by
  unfold symLe symLess
  cases hx : x.isNamelist <;> cases hy : y.isNamelist <;> simp [hx, hy] <;> omega

theorem symLe_trans {x y z : Sym} (h1 : symLe x y = true) (h2 : symLe y z = true) :
    symLe x z = true := by
  unfold symLe symLess at h1 h2 ⊢
  cases hx : x.isNamelist <;> cases hy : y.isNamelist <;> cases hz : z.isNamelist <;>
    simp [hx, hy, hz] at h1 h2 ⊢ <;> omega

theorem mem_insertSorted {le : Sym → Sym → Bool} {x z : Sym} {l : List Sym} :
    z ∈ insertSorted le x l ↔ z = x ∨ z ∈ l := by
  constructor
  · intro h
    have := (insertSorted_perm le x l).mem_iff.mp h
    simpa using this
  · intro h
    apply (insertSorted_perm le x l).mem_iff.mpr
    simpa using h

theorem insertSorted_pairwise {x : Sym} {l : List Sym}
    (h : l.Pairwise (fun a b => symLe a b = true)) :
    (insertSorted symLe x l).Pairwise (fun a b => symLe a b = true) := by
  induction l with
  | nil => simp [insertSorted]
  | cons y ys ih =>
    unfold insertSorted
    rcases List.pairwise_cons.mp h with ⟨hy, hys⟩
    by_cases hxy : symLe x y = true
    · rw [if_pos hxy]
      refine List.pairwise_cons.mpr ⟨?_, h⟩
      intro b hb
      rcases List.mem_cons.mp hb with rfl | hb
      · exact hxy
      · exact symLe_trans hxy (hy _ hb)
    · rw [if_neg hxy]
      refine List.pairwise_cons.mpr ⟨?_, ih hys⟩
      intro b hb
      rcases mem_insertSorted.mp hb with hbx | hb
      · rw [hbx]
        rcases symLe_total x y with h' | h'
        · exact absurd h' hxy
        · exact h'
      · exact hy _ hb

theorem sortSyms_pairwise (l : List Sym) :
    (sortSyms symLe l).Pairwise (fun a b => symLe a b = true) := by
  induction l with
  | nil => simp [sortSyms]
  | cons x xs ih => exact insertSorted_pairwise ih

theorem collectLoop_subset {x : Sym} :
    ∀ (l : List Sym) (seen : List Nat) (sorted : List Sym),
      x ∈ (collectLoop seen sorted l).2 → x ∈ sorted ∨ x ∈ l := by
  intro l
  induction l with
  | nil =>
    intro seen sorted h
    exact Or.inl h
  | cons s rest ih =>
    intro seen sorted h
    unfold collectLoop at h
    by_cases hs : seen.contains s.id
    · rw [if_pos hs] at h
      rcases ih _ _ h with h' | h'
      · exact Or.inl h'
      · exact Or.inr (List.mem_cons_of_mem _ h')
    · rw [if_neg hs] at h
      rcases ih _ _ h with h' | h'
      · rcases List.mem_append.mp h' with h'' | h''
        · exact Or.inl h''
        · simp at h''
          subst h''
          exact Or.inr (List.mem_cons_self _ _)
      · exact Or.inr (List.mem_cons_of_mem _ h')

/-! ## Claim theorems for the mod-file writer -/

/-- C4: for every module body, if a file already exists at the target mod-file
path whose byte length and contents equal exactly the header line, a newline,
and the body the writer would produce, then `WriteFile` returns true and
leaves the on-disk file byte-for-byte unchanged, performing no write;
consequently writing the same module twice yields byte-identical files, the
second call writing nothing. -/
theorem claim_C4 (c : List Nat) (f : Option (List Nat))
    (h : f = some (GetHeader c ++ 10 :: c)) :
    WriteFile f c = { result := true, file := f, wrote := false } ∧
    ∀ f0 : Option (List Nat),
      WriteFile (WriteFile f0 c).file c =
        { result := true, file := (WriteFile f0 c).file, wrote := false } := by
  constructor
  · exact WriteFile_match c f h
  · intro f0
    exact WriteFile_match c _ (WriteFile_file f0 c)

/-- Witness for C4 at a concrete one-byte module body. -/
theorem claim_C4_witness :
    WriteFile (some (GetHeader [109] ++ 10 :: [109])) [109] =
      { result := true, file := some (GetHeader [109] ++ 10 :: [109]), wrote := false } ∧
    WriteFile (WriteFile none [109]).file [109] =
      { result := true, file := (WriteFile none [109]).file, wrote := false } :=
  ⟨(claim_C4 [109] _ rfl).1, (claim_C4 [109] _ rfl).2 none⟩

/-- C5: for every module body string, the header prepended by the writer is
exactly the magic `!mod$ v1 sum:` followed by sixteen lowercase hexadecimal
digits (zero-padded on the left) of the 64-bit FNV-1a hash of the body bytes,
computed with initial state 0xcbf29ce484222325 and multiplier 0x100000001b3,
XORing each byte into the hash before multiplying (see `CheckSumHash`). -/
theorem claim_C5 (body : List Nat) :
    GetHeader body = magic ++ hexPad16 (CheckSumHash body) ∧
    (hexPad16 (CheckSumHash body)).length = 16 ∧
    ∀ d ∈ hexPad16 (CheckSumHash body), isLowerHexByte d = true := by
  refine ⟨?_, ?_, ?_⟩
  · unfold GetHeader
    rw [CheckSum_eq_hexPad16]
  · simp [hexPad16]
  · intro d hd
    simp only [hexPad16, List.mem_map] at hd
    obtain ⟨j, _, rfl⟩ := hd
    have hlt : CheckSumHash body / 16 ^ (15 - j) % 16 < 16 :=
      Nat.mod_lt _ (by decide)
    unfold hexDigit isLowerHexByte
    by_cases h : CheckSumHash body / 16 ^ (15 - j) % 16 < 10
    · rw [if_pos h]
      simp
      omega
    · rw [if_neg h]
      simp
      omega

/-- Counterexample for C6: in a scope with a namelist declared at offset 50
and a common block whose name begins at offset 5, the collected list places
the common-block symbol first (it is sorted by offset among the non-namelist
symbols), so the common-block symbols are not appended after everything
else. -/
theorem claim_C6_counterexample :
    CollectSymbols cexScope =
      [{ id := 1, nameBegin := 5, isNamelist := false, isCommon := true, parentComp := false },
       { id := 0, nameBegin := 50, isNamelist := true, isCommon := false, parentComp := false }] ∧
    commonsLast (CollectSymbols cexScope) = false := by
  constructor <;> decide

/-- C6 as amended: the collected symbol list is a permutation of the scope's
non-`ParentComp` symbols (de-duplicated) followed by the common-block symbols,
sorted as one vector by the namelist-then-source-offset comparator (so all
non-namelist symbols, common blocks included, precede all namelist symbols and
each group is ordered by source-name start offset); common-block symbols are
not appended after everything else.  Every collected symbol either comes from
the scope's symbol table and is not flagged `ParentComp`, or comes from the
common-block table. -/
theorem claim_C6 (scope : ScopeSyms) :
    List.Perm (CollectSymbols scope) (collectedBeforeSort scope) ∧
    (CollectSymbols scope).Pairwise (fun a b => symLe a b = true) ∧
    ∀ s ∈ CollectSymbols scope,
      (s ∈ scope.symbols ∧ s.parentComp = false) ∨ s ∈ scope.commonBlocks := by
  refine ⟨sortSyms_perm _ _, sortSyms_pairwise _, ?_⟩
  intro s hs
  have hmem : s ∈ collectedBeforeSort scope :=
    (sortSyms_perm symLe (collectedBeforeSort scope)).mem_iff.mp hs
  unfold collectedBeforeSort at hmem
  rcases collectLoop_subset _ _ _ hmem with h1 | h1
  · rcases collectLoop_subset _ _ _ h1 with h2 | h2
    · simp at h2
    · rw [List.mem_filter] at h2
      refine Or.inl ⟨h2.1, ?_⟩
      have := h2.2
      simpa using this
  · exact Or.inr h1

/-! ## Reader lemmas -/

theorem findLoop_fst (env : FileEnv) (name ancestorName : List Nat) :
    ∀ (dirs : List (List Nat)) (atts : List Attachment) (acc : List (List Nat)),
      (findLoop env name ancestorName dirs atts acc).1 =
        dirs.findSome? (acceptsDir env name ancestorName) := by
  intro dirs
  induction dirs with
  | nil => intro atts acc; rfl
  | cons dir rest ih =>
    intro atts acc
    rw [List.findSome?_cons]
    unfold findLoop acceptsDir
    rcases hf : env.fs.lookup (ModFilePath dir name ancestorName) with _ | bytes
    · simp only [hf]
      exact ih _ _
    · simp only [hf]
      by_cases hm : startsWithB magic (firstLine bytes) = true
      · simp only [hm, if_true]
      · simp only [hm, if_false]
        exact ih _ _

theorem findLoop_atts_length (env : FileEnv) (name ancestorName : List Nat) :
    ∀ (dirs : List (List Nat)) (atts : List Attachment) (acc : List (List Nat)),
      (findLoop env name ancestorName dirs atts acc).1 = none →
      (findLoop env name ancestorName dirs atts acc).2.1.length =
        atts.length + dirs.length := by
  intro dirs
  induction dirs with
  | nil => intro atts acc _; simp [findLoop]
  | cons dir rest ih =>
    intro atts acc h
    unfold findLoop at h ⊢
    rcases hf : env.fs.lookup (ModFilePath dir name ancestorName) with _ | bytes
    · simp only [hf] at h ⊢
      rw [ih _ _ h]
      simp
      omega
    · simp only [hf] at h ⊢
      by_cases hm : startsWithB magic (firstLine bytes) = true
      · rw [if_pos hm] at h
        exact absurd h (by simp)
      · rw [if_neg hm] at h ⊢
        rw [ih _ _ h]
        simp
        omega

theorem findLoop_accepted (env : FileEnv) (name ancestorName : List Nat) :
    ∀ (dirs : List (List Nat)) (atts : List Attachment) (acc : List (List Nat))
      (path : List Nat),
      (findLoop env name ancestorName dirs atts acc).1 = some path →
      ∃ bytes, env.fs.lookup path = some bytes ∧
        startsWithB magic (firstLine bytes) = true := by
  intro dirs
  induction dirs with
  | nil => intro atts acc path h; exact absurd h (by simp [findLoop])
  | cons dir rest ih =>
    intro atts acc path h
    unfold findLoop at h
    rcases hf : env.fs.lookup (ModFilePath dir name ancestorName) with _ | bytes
    · simp only [hf] at h
      exact ih _ _ _ h
    · simp only [hf] at h
      by_cases hm : startsWithB magic (firstLine bytes) = true
      · simp only [hm, if_true] at h
        have hp : path = ModFilePath dir name ancestorName := by
          simpa using (Option.some.inj h).symm
        subst hp
        exact ⟨bytes, hf, hm⟩
      · simp only [hm, if_false] at h
        exact ih _ _ _ h

theorem lookup_setModFileFlag (name : List Nat) :
    ∀ (g : List (List Nat × ModSym)) (sym : ModSym), g.lookup name = some sym →
      (setModFileFlag g name).lookup name = some { sym with modFileFlag := true } := by
  intro g
  induction g with
  | nil => intro sym h; exact absurd h (by simp)
  | cons p rest ih =>
    intro sym h
    unfold setModFileFlag
    rw [List.lookup_cons] at h
    by_cases hp : p.1 = name
    · have hbe : (name == p.1) = true := by simp [hp]
      rw [hbe] at h
      simp only [List.map_cons, if_pos hp]
      rw [List.lookup_cons]
      simp only [hbe]
      rw [Option.some.inj h]
    · have hbe : (name == p.1) = false := by simp [Ne.symm hp]
      rw [hbe] at h
      simp only [List.map_cons, if_neg hp]
      rw [List.lookup_cons]
      simp only [hbe]
      exact ih sym h

/-! ## Claim theorems for the mod-file reader -/

/-- C7: for a module-name lookup that is not already loaded, `Read` searches
the configured directories in order and accepts the first candidate whose
first line begins with the magic string; if no candidate is accepted it
returns null after emitting exactly one cannot-find error carrying one
per-directory attachment for each directory tried; if a candidate is accepted
but the recomputed FNV-1a checksum of the body differs from the sixteen
digits following the magic, it returns null after emitting one
invalid-checksum error; in both failure cases the state is changed only by
the one diagnostic, so no scope is spliced. -/
theorem claim_C7 (parse : List Nat → Bool)
    (resolve : List (List Nat × ModSym) → List (List Nat × ModSym))
    (sub : List Nat → RState → List (List Nat) → Option Nat × RState × List (List Nat))
    (env : FileEnv) (st : RState) (name : List Nat)
    (hnl : st.global.lookup name = none) :
    (FindModFile env st name []).1 = firstAccepted env name [] ∧
    (firstAccepted env name [] = none →
      Read parse resolve sub env st name none =
        (none,
          { st with diags := st.diags ++ [.cannotFind name [] (findAtts env name [])] },
          (findLoop env name [] env.searchDirectories [] []).2.2) ∧
      (findAtts env name []).length = env.searchDirectories.length) ∧
    (∀ path bytes, firstAccepted env name [] = some path →
      env.fs.lookup path = some bytes →
      ((firstLine bytes).drop magic.length).take 16 ≠ CheckSum (restAfterLine bytes) →
      (Read parse resolve sub env st name none).1 = none ∧
      (Read parse resolve sub env st name none).2.1 =
        addDiag st (.invalidChecksum name)) := by
  have hfst := findLoop_fst env name [] env.searchDirectories [] []
  refine ⟨?_, ?_, ?_⟩
  · unfold FindModFile firstAccepted
    rcases hfl : findLoop env name [] env.searchDirectories [] [] with ⟨p, atts, acc⟩
    rw [hfl] at hfst
    rw [← hfst]
    cases p <;> simp
  · intro hna
    have hp : (findLoop env name [] env.searchDirectories [] []).1 = none := by
      unfold firstAccepted at hna
      rw [hfst]
      exact hna
    constructor
    · rcases hfl : findLoop env name [] env.searchDirectories [] [] with ⟨p, atts, acc⟩
      rw [hfl] at hp
      simp only at hp
      subst hp
      simp only [Read, hnl, ReadRest, FindModFile, findAtts, hfl]
      rfl
    · have hlen := findLoop_atts_length env name [] env.searchDirectories [] [] hp
      unfold findAtts
      simpa using hlen
  · intro path bytes hpa hlk hneq
    have hp : (findLoop env name [] env.searchDirectories [] []).1 = some path := by
      unfold firstAccepted at hpa
      rw [hfst]
      exact hpa
    obtain ⟨bytes2, hlk2, hmag2⟩ :=
      findLoop_accepted env name [] env.searchDirectories [] [] path hp
    rw [hlk] at hlk2
    have hb : bytes2 = bytes := Option.some.inj hlk2.symm
    subst hb
    have hvh : VerifyHeader env path = false := by
      unfold VerifyHeader
      simp only [hlk]
      rw [if_pos hmag2]
      simpa using hneq
    rcases hfl : findLoop env name [] env.searchDirectories [] [] with ⟨p, atts, acc⟩
    rw [hfl] at hp
    simp only at hp
    subst hp
    constructor <;>
      simp only [Read, hnl, ReadRest, FindModFile, hfl, hvh, Bool.false_eq_true,
        if_false]

/-- Witness for C7: a single-directory search locating a file for module "m"
whose header digits are sixteen zeros, which is not the checksum of its empty
body; the read fails and says the invalid-checksum error. -/
theorem claim_C7_witness :
    (Read (fun _ => true) id (fun _ st acc => (none, st, acc)) c7env
        { global := [], diags := [] } [109] none).1 = none ∧
    (Read (fun _ => true) id (fun _ st acc => (none, st, acc)) c7env
        { global := [], diags := [] } [109] none).2.1 =
      addDiag { global := [], diags := [] } (.invalidChecksum [109]) :=
  (claim_C7 (fun _ => true) id (fun _ st acc => (none, st, acc)) c7env
      { global := [], diags := [] } [109] rfl).2.2
    (ModFilePath [46] [109] []) c7bytes (by decide) (by decide) (by decide)

/-- C10: when the requested module is already present — as a submodule of the
given ancestor scope or as a symbol of that name in the global scope — `Read`
returns the existing scope immediately, with no directory search, no file
access and no diagnostics (the state is returned untouched and the access log
is empty); consequently a second `Read` of the same module name after a
successful first `Read` returns the same scope as the first, with no further
file access. -/
theorem claim_C10 (parse : List Nat → Bool)
    (resolve : List (List Nat × ModSym) → List (List Nat × ModSym))
    (sub : List Nat → RState → List (List Nat) → Option Nat × RState × List (List Nat))
    (env : FileEnv) (st : RState) (name : List Nat) :
    (∀ sym, st.global.lookup name = some sym →
      Read parse resolve sub env st name none = (some sym.scopeId, st, [])) ∧
    (∀ anc sid, anc.submodules.lookup name = some sid →
      Read parse resolve sub env st name (some anc) = (some sid, st, [])) ∧
    (∀ sid st2 acc,
      Read parse resolve sub env st name none = (some sid, st2, acc) →
      Read parse resolve sub env st2 name none = (some sid, st2, [])) := by
  refine ⟨?_, ?_, ?_⟩
  · intro sym h
    simp only [Read, h]
  · intro anc sid h
    simp only [Read, h]
  · intro sid st2 acc hsucc
    unfold Read at hsucc
    rcases hg : st.global.lookup name with _ | sym
    · simp only [hg] at hsucc
      unfold ReadRest FindModFile at hsucc
      rcases hfl : findLoop env name [] env.searchDirectories [] [] with ⟨p, atts, acc1⟩
      simp only [hfl] at hsucc
      rcases p with _ | path
      · simp at hsucc
      · simp only at hsucc
        by_cases hv : VerifyHeader env path = true
        · rw [if_pos hv] at hsucc
          by_cases hpr : parse path = true
          · rw [if_pos hpr] at hsucc
            rcases hres : (resolve st.global).lookup name with _ | sym2
            · simp only [hres] at hsucc
              simp at hsucc
            · simp only [hres] at hsucc
              simp only [Prod.mk.injEq, Option.some.inj] at hsucc
              obtain ⟨h1, h2, _⟩ := hsucc
              have hlook : st2.global.lookup name =
                  some { sym2 with modFileFlag := true } := by
                rw [← h2]
                exact lookup_setModFileFlag name _ _ hres
              simp only [Read, hlook]
              rw [← h1]
          · rw [if_neg hpr] at hsucc
            simp [addDiag] at hsucc
        · rw [if_neg hv] at hsucc
          simp [addDiag] at hsucc
    · simp only [hg] at hsucc
      simp only [Prod.mk.injEq, Option.some.inj] at hsucc
      obtain ⟨h1, h2, _⟩ := hsucc
      subst h2
      simp only [Read, hg]
      rw [← h1]

/-- Witness for C10: a successful first load of module "m" (scope 3) followed
by a second `Read` that returns the same scope from the global table with no
file access. -/
theorem claim_C10_witness :
    Read (fun _ => true) c10resolve (fun _ st acc => (none, st, acc)) c10env
      { global := [([109], { scopeId := 3, modFileFlag := true })], diags := [] }
      [109] none =
      (some 3,
        { global := [([109], { scopeId := 3, modFileFlag := true })], diags := [] },
        []) :=
  (claim_C10 (fun _ => true) c10resolve (fun _ st acc => (none, st, acc)) c10env
      { global := [], diags := [] } [109]).2.2 3
    { global := [([109], { scopeId := 3, modFileFlag := true })], diags := [] }
    [[109, 46, 109, 111, 100], [109, 46, 109, 111, 100], [109, 46, 109, 111, 100]]
    (by decide)

end ModFile

namespace FIR

/-! ## Claim theorems for the control-flow lowering -/

/-! ### Label interning lemmas -/

theorem lookupN_append (k : Nat) (l2 : List (Nat × Nat)) :
    ∀ l1 : List (Nat × Nat),
      (l1 ++ l2).lookup k = ((l1.lookup k).orElse (fun _ => l2.lookup k)) := by
  intro l1
  induction l1 with
  | nil => simp [List.lookup]
  | cons p rest ih =>
    obtain ⟨a, b⟩ := p
    rw [List.cons_append]
    simp only [List.lookup]
    by_cases h : (k == a) = true
    · simp [h]
    · simp [h, ih]

theorem FetchLabel_persist {ad : AnalysisData} {k r : Nat} (m : Nat)
    (h : ad.labelMap.lookup k = some r) :
    (FetchLabel ad m).2.labelMap.lookup k = some r := by
  unfold FetchLabel
  rcases hm : ad.labelMap.lookup m with _ | r2
  · simp only [hm]
    rw [lookupN_append, h]
    rfl
  · simp only [hm]
    exact h

theorem FetchLabel_self (ad : AnalysisData) (l : Nat) :
    (FetchLabel ad l).2.labelMap.lookup l = some (FetchLabel ad l).1 := by
  unfold FetchLabel
  rcases h : ad.labelMap.lookup l with _ | r
  · simp only [h]
    rw [lookupN_append, h]
    simp [List.lookup]
  · simp [h]

theorem FetchLabel_wf {ad : AnalysisData} (m : Nat) (h : AdWf ad) :
    AdWf (FetchLabel ad m).2 := by
  unfold FetchLabel
  rcases hm : ad.labelMap.lookup m with _ | r
  · simp only [hm]
    intro p hp
    rcases List.mem_append.mp hp with hp2 | hp2
    · exact Nat.lt_succ_of_lt (h p hp2)
    · simp at hp2
      rw [hp2]
      exact Nat.lt_succ_self _
  · simp only [hm]
    exact h

theorem persist_ite {c : Prop} [Decidable c] {x : AnalysisData} {k r : Nat} (m : Nat)
    (h : x.labelMap.lookup k = some r) :
    (if c then (FetchLabel x m).2 else x).labelMap.lookup k = some r := by
  split
  · exact FetchLabel_persist m h
  · exact h

theorem wf_ite {c : Prop} [Decidable c] {x : AnalysisData} (m : Nat) (h : AdWf x) :
    AdWf (if c then (FetchLabel x m).2 else x) := by
  split
  · exact FetchLabel_wf m h
  · exact h

/-- C1 as amended (first conjunct, from the source of `threeLabelSpec`): for
every I/O statement carrying at least one ERR=, EOR= or END= specifier, the
linearizer emits exactly one `SwitchingIO` op followed by the fresh next
label: the op records the next label and, for each present specifier, the
label interned for it in the final label map, while absent specifiers are
recorded as `none`; the next label differs from every interned linear label.
Second conjunct (against the CFG constructor): for the three-specifier READ
of scenario S5, the block containing the I/O operation has exactly one
outgoing edge after CFG construction — to the block of the next label —
rather than the four edges the original claim states, because the recorded
err/eor/end labels are not materialised as edges. -/
theorem claim_C1 (err eor endl : Nat) (ad : AnalysisData) (hwf : AdWf ad)
    (hpresent : err ≠ 0 ∨ eor ≠ 0 ∨ endl ≠ 0) :
    (∃ ad' next errRef eorRef endRef,
      buildStmt (.readStmt err eor endl) ad =
        .ok ([.ioSwitch next errRef eorRef endRef, .label next], ad') ∧
      (err = 0 → errRef = none) ∧
      (err ≠ 0 → errRef = ad'.labelMap.lookup err) ∧
      (eor = 0 → eorRef = none) ∧
      (eor ≠ 0 → eorRef = ad'.labelMap.lookup eor) ∧
      (endl = 0 → endRef = none) ∧
      (endl ≠ 0 → endRef = ad'.labelMap.lookup endl) ∧
      (∀ p ∈ ad'.labelMap, p.2 ≠ next)) ∧
    ((lowerProcedure readThreeLabels).toOption.map
        (fun p => (p.1.blocks.lookup 0).map Block.termSucc) = some (some [1]) ∧
      (lowerProcedure readThreeLabels).toOption.map
        (fun p => p.1.blockMap.lookup 3) = some (some 1)) := by
  refine ⟨?_, by decide, by decide⟩
  simp only [buildStmt, threeLabelSpec]
  rw [if_pos hpresent]
  refine ⟨_, _, _, _, _, rfl, ?_, ?_, ?_, ?_, ?_, ?_, ?_⟩
  · intro h0
    rw [if_neg (fun hc => hc h0)]
  · intro h1
    simp only [if_pos h1]
    exact (persist_ite endl (persist_ite eor (FetchLabel_self ad err))).symm
  · intro h0
    rw [if_neg (fun hc => hc h0)]
  · intro h1
    simp only [if_pos h1]
    exact (persist_ite endl (FetchLabel_self _ eor)).symm
  · intro h0
    rw [if_neg (fun hc => hc h0)]
  · intro h1
    simp only [if_pos h1]
    exact (FetchLabel_self _ endl).symm
  · intro p hp
    exact Nat.ne_of_lt (wf_ite endl (wf_ite eor (wf_ite err hwf)) p hp)

/-- Witness for C1: the three-specifier READ (ERR=10, EOR=20, END=30) built
from the initial analysis state satisfies the amended property. -/
theorem claim_C1_witness :
    AdWf AnalysisData.init ∧ ((10 : Nat) ≠ 0 ∨ (20 : Nat) ≠ 0 ∨ (30 : Nat) ≠ 0) ∧
    ∃ ad' next errRef eorRef endRef,
      buildStmt (.readStmt 10 20 30) AnalysisData.init =
        .ok ([.ioSwitch next errRef eorRef endRef, .label next], ad') ∧
      ((10 : Nat) ≠ 0 → errRef = ad'.labelMap.lookup 10) ∧
      ((20 : Nat) ≠ 0 → eorRef = ad'.labelMap.lookup 20) ∧
      ((30 : Nat) ≠ 0 → endRef = ad'.labelMap.lookup 30) ∧
      ∀ p ∈ ad'.labelMap, p.2 ≠ next := by
  obtain ⟨⟨ad', next, e, o, n, h1, _, h3, _, h5, _, h7, h8⟩, _⟩ :=
    claim_C1 10 20 30 AnalysisData.init (fun _ hp => nomatch hp) (by decide)
  exact ⟨(fun _ hp => nomatch hp), by decide, ad', next, e, o, n, h1, h3, h5, h7, h8⟩

/-! ### Association-list lemmas for the block arena -/

theorem lookupA_mem {α : Type} {k : Nat} {v : α} :
    ∀ {bs : List (Nat × α)}, bs.lookup k = some v → (k, v) ∈ bs := by
  intro bs
  induction bs with
  | nil => intro h; simp [List.lookup] at h
  | cons p rest ih =>
    intro h
    obtain ⟨a, w⟩ := p
    simp only [List.lookup] at h
    cases hb : (k == a) with
    | true =>
      rw [hb] at h
      have ha : k = a := by simpa using hb
      have hw : w = v := by simpa using h
      rw [ha, ← hw]
      exact List.mem_cons_self _ _
    | false =>
      rw [hb] at h
      exact List.mem_cons_of_mem _ (ih h)

theorem lookupA_eq_of_mem {α : Type} :
    ∀ {bs : List (Nat × α)}, (bs.map Prod.fst).Nodup →
      ∀ {k : Nat} {v : α}, (k, v) ∈ bs → bs.lookup k = some v := by
  intro bs
  induction bs with
  | nil => intro _ k v hm; simp at hm
  | cons p rest ih =>
    intro hnd k v hm
    obtain ⟨a, w⟩ := p
    simp only [List.map, List.nodup_cons] at hnd
    rcases List.mem_cons.mp hm with he | hm2
    · rw [Prod.mk.injEq] at he
      simp only [List.lookup]
      simp [he.1, he.2]
    · have hk : k ≠ a := by
        intro he2
        exact hnd.1 (List.mem_map.mpr ⟨(k, v), hm2, he2⟩)
      simp only [List.lookup]
      have hb : (k == a) = false := by simp [hk]
      rw [hb]
      exact ih hnd.2 hm2

theorem lookupA_none {α : Type} {k : Nat} :
    ∀ {bs : List (Nat × α)}, (∀ p ∈ bs, p.1 ≠ k) → bs.lookup k = none := by
  intro bs
  induction bs with
  | nil => intro _; rfl
  | cons p rest ih =>
    intro h
    obtain ⟨a, w⟩ := p
    simp only [List.lookup]
    have ha : ¬(k == a) = true := by
      simp only [beq_iff_eq]
      intro hk
      exact h (a, w) (List.mem_cons_self _ _) (hk.symm)
    rw [Bool.not_eq_true] at ha
    rw [ha]
    exact ih fun q hq => h q (List.mem_cons_of_mem _ hq)

theorem lookupA_append {α : Type} (k : Nat) (l2 : List (Nat × α)) :
    ∀ l1 : List (Nat × α),
      (l1 ++ l2).lookup k = ((l1.lookup k).orElse (fun _ => l2.lookup k)) := by
  intro l1
  induction l1 with
  | nil => simp [List.lookup]
  | cons p rest ih =>
    obtain ⟨a, b⟩ := p
    rw [List.cons_append]
    simp only [List.lookup]
    cases hb : (k == a) with
    | true => rfl
    | false => simp [ih]

theorem lookup_mapEntry {α β : Type} (G : Nat → α → β) :
    ∀ (bs : List (Nat × α)) (k : Nat),
      (bs.map (fun p => (p.1, G p.1 p.2))).lookup k = (bs.lookup k).map (G k) := by
  intro bs k
  induction bs with
  | nil => rfl
  | cons p rest ih =>
    obtain ⟨a, w⟩ := p
    simp only [List.map, List.lookup]
    cases hb : (k == a) with
    | true =>
      have hk : k = a := by simpa using hb
      rw [hk]
      simp
    | false =>
      simp only [Option.map]
      exact ih

theorem mem_keys {α : Type} {bs : List (Nat × α)} {k : Nat} :
    k ∈ bs.map Prod.fst ↔ ∃ v, (k, v) ∈ bs := by
  constructor
  · intro h
    obtain ⟨p, hp, he⟩ := List.mem_map.mp h
    exact ⟨p.2, by rw [← he]; exact hp⟩
  · rintro ⟨v, hv⟩
    exact List.mem_map.mpr ⟨(k, v), hv, rfl⟩

/-! ### Block-level lemmas -/

theorem predAdd_stmts (b : Nat) (blk : Block) : (predAdd b blk).stmts = blk.stmts := by
  unfold predAdd
  split <;> rfl

theorem predAdd_terminator (b : Nat) (blk : Block) :
    (predAdd b blk).terminator = blk.terminator := by
  unfold Block.terminator
  rw [predAdd_stmts]

theorem predAdd_termSucc (b : Nat) (blk : Block) :
    (predAdd b blk).termSucc = blk.termSucc := by
  unfold Block.termSucc
  rw [predAdd_terminator]

theorem predAdd_terminated (b : Nat) (blk : Block) :
    (predAdd b blk).terminated = blk.terminated := by
  unfold Block.terminated
  rw [predAdd_terminator]

theorem mem_predAdd {x b : Nat} {blk : Block} :
    x ∈ (predAdd b blk).preds ↔ x ∈ blk.preds ∨ x = b := by
  unfold predAdd
  by_cases h : b ∈ blk.preds
  · rw [if_pos h]
    constructor
    · exact Or.inl
    · rintro (h2 | rfl)
      exacts [h2, h]
  · rw [if_neg h]
    simp

theorem predAdd_nodup {b : Nat} {blk : Block} (h : blk.preds.Nodup) :
    (predAdd b blk).preds.Nodup := by
  unfold predAdd
  by_cases hb : b ∈ blk.preds
  · rw [if_pos hb]
    exact h
  · rw [if_neg hb]
    simp [List.nodup_append, h, hb]

theorem predAdd_of_mem {b : Nat} {blk : Block} (h : b ∈ blk.preds) :
    predAdd b blk = blk := by
  unfold predAdd
  rw [if_pos h]

theorem predAdd_idem (b : Nat) (blk : Block) :
    predAdd b (predAdd b blk) = predAdd b blk :=
  predAdd_of_mem (mem_predAdd.mpr (Or.inr rfl))

theorem termSucc_of_unterminated {blk : Block} (h : blk.terminated = false) :
    blk.termSucc = [] := by
  unfold Block.terminated at h
  unfold Block.termSucc
  rcases ht : blk.terminator with _ | st
  · rfl
  · rw [ht] at h
    simp at h

theorem append_term_termSucc {blk : Block} {st : IRStmt} (hst : st.isTerminator = true) :
    Block.termSucc { blk with stmts := blk.stmts ++ [st] } = st.succBlocks := by
  unfold Block.termSucc Block.terminator
  simp [List.getLast?_concat, hst]

theorem append_term_terminated {blk : Block} {st : IRStmt} (hst : st.isTerminator = true) :
    Block.terminated { blk with stmts := blk.stmts ++ [st] } = true := by
  unfold Block.terminated Block.terminator
  simp [List.getLast?_concat, hst]

theorem append_action_terminator (blk : Block) :
    Block.terminator { blk with stmts := blk.stmts ++ [IRStmt.action] } = none := by
  unfold Block.terminator
  simp [List.getLast?_concat, IRStmt.isTerminator]

theorem append_action_termSucc (blk : Block) :
    Block.termSucc { blk with stmts := blk.stmts ++ [IRStmt.action] } = [] := by
  unfold Block.termSucc
  rw [append_action_terminator]

theorem append_action_terminated (blk : Block) :
    Block.terminated { blk with stmts := blk.stmts ++ [IRStmt.action] } = false := by
  unfold Block.terminated
  rw [append_action_terminator]
  rfl

/-! ### The entrywise effect of `InsertTerminator` -/

theorem tG_preds_mem {b : Nat} {st : IRStmt} {k x : Nat} {v : Block} :
    x ∈ (tG b st k v).preds ↔ x ∈ v.preds ∨ (x = b ∧ k ∈ st.succBlocks) := by
  simp only [tG]
  have hv1 : (if k = b then { v with stmts := v.stmts ++ [st] } else v).preds = v.preds := by
    split <;> rfl
  by_cases hk : k ∈ st.succBlocks
  · rw [if_pos hk, mem_predAdd, hv1]
    constructor
    · rintro (h | h)
      exacts [Or.inl h, Or.inr ⟨h, hk⟩]
    · rintro (h | ⟨h, _⟩)
      exacts [Or.inl h, Or.inr h]
  · rw [if_neg hk, hv1]
    constructor
    · exact Or.inl
    · rintro (h | ⟨_, h2⟩)
      exacts [h, absurd h2 hk]

theorem tG_termSucc_ne {b : Nat} {st : IRStmt} {k : Nat} {v : Block} (hk : k ≠ b) :
    (tG b st k v).termSucc = v.termSucc := by
  simp only [tG]
  rw [if_neg hk]
  split
  · rw [predAdd_termSucc]
  · rfl

theorem tG_terminated_ne {b : Nat} {st : IRStmt} {k : Nat} {v : Block} (hk : k ≠ b) :
    (tG b st k v).terminated = v.terminated := by
  simp only [tG]
  rw [if_neg hk]
  split
  · rw [predAdd_terminated]
  · rfl

theorem tG_termSucc_self {b : Nat} {st : IRStmt} {v : Block}
    (hst : st.isTerminator = true) :
    (tG b st b v).termSucc = st.succBlocks := by
  simp only [tG, if_true]
  split
  · rw [predAdd_termSucc, append_term_termSucc hst]
  · rw [append_term_termSucc hst]

theorem tG_terminated_self {b : Nat} {st : IRStmt} {v : Block}
    (hst : st.isTerminator = true) :
    (tG b st b v).terminated = true := by
  simp only [tG, if_true]
  split
  · rw [predAdd_terminated, append_term_terminated hst]
  · rw [append_term_terminated hst]

theorem tG_preds_nodup {b : Nat} {st : IRStmt} {k : Nat} {v : Block}
    (h : v.preds.Nodup) : (tG b st k v).preds.Nodup := by
  simp only [tG]
  have hv1 : (if k = b then { v with stmts := v.stmts ++ [st] } else v).preds = v.preds := by
    split <;> rfl
  split
  · apply predAdd_nodup
    rw [hv1]
    exact h
  · rw [hv1]
    exact h

theorem updBlock_eq (bs : List (Nat × Block)) (id : Nat) (f : Block → Block) :
    updBlock bs id f = bs.map fun p => (p.1, if p.1 = id then f p.2 else p.2) := by
  have he : (fun p : Nat × Block => if p.1 = id then (p.1, f p.2) else p) =
      fun p : Nat × Block => (p.1, if p.1 = id then f p.2 else p.2) := by
    funext p
    by_cases h : p.1 = id
    · rw [if_pos h, if_pos h]
    · rw [if_neg h, if_neg h]
  rw [updBlock, he]

theorem foldl_addPred (b : Nat) :
    ∀ (L : List Nat) (bs : List (Nat × Block)),
      L.foldl (fun bs d => addPred bs d b) bs =
        bs.map (fun p => if p.1 ∈ L then (p.1, predAdd b p.2) else p) := by
  intro L
  induction L with
  | nil =>
    intro bs
    simp
  | cons d L ih =>
    intro bs
    have hstep : addPred bs d b = updBlock bs d (predAdd b) := rfl
    rw [List.foldl_cons, ih, hstep, updBlock, List.map_map]
    refine congrArg (fun f => List.map f bs) ?_
    funext p
    simp only [Function.comp]
    by_cases hd : p.1 = d
    · by_cases hL : p.1 ∈ L <;>
        simp [hd, hL, predAdd_idem, List.mem_cons]
    · by_cases hL : p.1 ∈ L <;>
        simp [hd, hL, List.mem_cons]

theorem foldl_upd_eq (b : Nat) (st : IRStmt) (bks : List (Nat × Block)) :
    st.succBlocks.foldl (fun bs d => addPred bs d b)
        (updBlock bks b (fun blk => { blk with stmts := blk.stmts ++ [st] })) =
      bks.map (fun p => (p.1, tG b st p.1 p.2)) := by
  rw [foldl_addPred, updBlock_eq, List.map_map]
  refine congrArg (fun f => List.map f bks) ?_
  funext p
  simp only [Function.comp, tG]
  by_cases hL : p.1 ∈ st.succBlocks
  · rw [if_pos hL, if_pos hL]
  · rw [if_neg hL, if_neg hL]

theorem insertTerminator_eq {s : FState} {st : IRStmt} {b : Nat}
    (hpt : s.insertPt = some b) :
    insertTerminator s st =
      .ok { s with blocks := s.blocks.map (fun p => (p.1, tG b st p.1 p.2)) } := by
  obtain ⟨bks, nb, regs, nr, cr, ipt, bm, df, dm⟩ := s
  dsimp only at hpt
  subst hpt
  exact congrArg
    (fun x => Except.ok (⟨x, nb, regs, nr, cr, some b, bm, df, dm⟩ : FState))
    (foldl_upd_eq b st bks)

theorem entry_eq_of_lookup {α : Type} {bs : List (Nat × α)}
    (hnd : (bs.map Prod.fst).Nodup) {b : Nat} {v : α} (hl : bs.lookup b = some v) :
    ∀ p ∈ bs, p.1 = b → p.2 = v := by
  intro p hp he
  have h2 : bs.lookup b = some p.2 := lookupA_eq_of_mem hnd (by rw [← he]; exact hp)
  rw [hl] at h2
  exact (Option.some.inj h2).symm

theorem tG_lookup (s : FState) (b : Nat) (st : IRStmt) (k : Nat) :
    (s.blocks.map (fun p => (p.1, tG b st p.1 p.2))).lookup k =
      (s.blocks.lookup k).map (tG b st k) :=
  lookup_mapEntry (tG b st) s.blocks k

theorem unterminated_tG {s : FState} {b k : Nat} {st : IRStmt} (hk : k ≠ b)
    (h : unterminatedAt s k) :
    unterminatedAt { s with blocks := s.blocks.map (fun p => (p.1, tG b st p.1 p.2)) } k := by
  obtain ⟨blk, hl, ht⟩ := h
  refine ⟨tG b st k blk, ?_, ?_⟩
  · show (s.blocks.map (fun p => (p.1, tG b st p.1 p.2))).lookup k = some (tG b st k blk)
    rw [tG_lookup, hl]
    rfl
  · rw [tG_terminated_ne hk, ht]

theorem BInv_tG {s : FState} {st : IRStmt} {b : Nat} {blk : Block}
    (hB : BInv s)
    (hblk : s.blocks.lookup b = some blk) (hterm : blk.terminated = false)
    (hsucc : ∀ d ∈ st.succBlocks, d ∈ s.blocks.map Prod.fst)
    (hst : st.isTerminator = true) :
    BInv { s with blocks := s.blocks.map (fun p => (p.1, tG b st p.1 p.2)) } := by
  have hkeys : ((s.blocks.map fun p => (p.1, tG b st p.1 p.2)).map Prod.fst) =
      s.blocks.map Prod.fst := by
    rw [List.map_map]
    rfl
  have hentry : ∀ p ∈ s.blocks, p.1 = b → p.2 = blk :=
    entry_eq_of_lookup hB.keysNodup hblk
  have hnp : ∀ q ∈ s.blocks, b ∉ q.2.preds := by
    intro q hq hmem
    have h2 := (hB.consistent (b, blk) (lookupA_mem hblk) q hq).mpr hmem
    rw [termSucc_of_unterminated hterm] at h2
    simp at h2
  constructor
  · intro p' hp'
    obtain ⟨p, hp, rfl⟩ := List.mem_map.mp hp'
    exact hB.keysLt p hp
  · show ((s.blocks.map fun p => (p.1, tG b st p.1 p.2)).map Prod.fst).Nodup
    rw [hkeys]
    exact hB.keysNodup
  · intro p' hp' q' hq'
    obtain ⟨p, hp, rfl⟩ := List.mem_map.mp hp'
    obtain ⟨q, hq, rfl⟩ := List.mem_map.mp hq'
    dsimp only
    rw [tG_preds_mem]
    by_cases hpb : p.1 = b
    · rw [hpb, hentry p hp hpb, tG_termSucc_self hst]
      constructor
      · intro h
        exact Or.inr ⟨rfl, h⟩
      · rintro (h | ⟨_, h⟩)
        · exact absurd h (hnp q hq)
        · exact h
    · rw [tG_termSucc_ne hpb]
      have hC := hB.consistent p hp q hq
      constructor
      · intro h
        exact Or.inl (hC.mp h)
      · rintro (h | ⟨he, _⟩)
        · exact hC.mpr h
        · exact absurd he hpb
  · intro p' hp'
    obtain ⟨p, hp, rfl⟩ := List.mem_map.mp hp'
    exact tG_preds_nodup (hB.predsNodup p hp)
  · intro p' hp' d hd
    obtain ⟨p, hp, rfl⟩ := List.mem_map.mp hp'
    show d ∈ (s.blocks.map fun p => (p.1, tG b st p.1 p.2)).map Prod.fst
    rw [hkeys]
    by_cases hpb : p.1 = b
    · rw [show (p.1, tG b st p.1 p.2).2 = tG b st p.1 p.2 from rfl, hpb,
        hentry p hp hpb, tG_termSucc_self hst] at hd
      exact hsucc d hd
    · rw [show (p.1, tG b st p.1 p.2).2 = tG b st p.1 p.2 from rfl,
        tG_termSucc_ne hpb] at hd
      exact hB.succKeys p hp d hd
  · intro p' hp' d hd
    obtain ⟨p, hp, rfl⟩ := List.mem_map.mp hp'
    show d ∈ (s.blocks.map fun p => (p.1, tG b st p.1 p.2)).map Prod.fst
    rw [hkeys]
    rw [show (p.1, tG b st p.1 p.2).2 = tG b st p.1 p.2 from rfl] at hd
    rcases tG_preds_mem.mp hd with h | ⟨rfl, _⟩
    · exact hB.predKeys p hp d h
    · exact mem_keys.mpr ⟨blk, lookupA_mem hblk⟩
  · intro q hq
    show q.2 ∈ (s.blocks.map fun p => (p.1, tG b st p.1 p.2)).map Prod.fst
    rw [hkeys]
    exact hB.mapKeys q hq

theorem unterminated_same {s s' : FState} {k : Nat} (hb : s'.blocks = s.blocks)
    (h : unterminatedAt s k) : unterminatedAt s' k := by
  obtain ⟨blk, hl, ht⟩ := h
  exact ⟨blk, by rw [hb]; exact hl, ht⟩

theorem BInv_same {s s' : FState} (hB : BInv s) (hb : s'.blocks = s.blocks)
    (hn : s'.nextBlock = s.nextBlock) (hm : s'.blockMap = s.blockMap) : BInv s' := by
  constructor
  · rw [hb, hn]
    exact hB.keysLt
  · rw [hb]
    exact hB.keysNodup
  · intro p hp q hq
    rw [hb] at hp hq
    exact hB.consistent p hp q hq
  · intro p hp
    rw [hb] at hp
    exact hB.predsNodup p hp
  · intro p hp d hd
    rw [hb] at hp ⊢
    exact hB.succKeys p hp d hd
  · intro p hp d hd
    rw [hb] at hp ⊢
    exact hB.predKeys p hp d hd
  · intro q hq
    rw [hm] at hq
    rw [hb]
    exact hB.mapKeys q hq

theorem SInv_same {s s' : FState} (hS : SInv s) (hb : s'.blocks = s.blocks)
    (hn : s'.nextBlock = s.nextBlock) (hm : s'.blockMap = s.blockMap)
    (hd : s'.deferred = s.deferred) : SInv s' := by
  refine ⟨BInv_same hS.toBInv hb hn hm, ?_, ?_⟩
  · intro c hc
    rw [hd] at hc
    exact unterminated_same hb (hS.closuresOk c hc)
  · rw [hd]
    exact hS.closuresNodup

theorem CInv_of_none {s : FState} (hS : SInv s) (hpt : s.insertPt = none) : CInv s := by
  refine ⟨hS, ?_, ?_⟩ <;> intro b hb <;> rw [hpt] at hb <;> cases hb

theorem CInv_clear {s : FState} (hS : SInv s) : CInv (clearInsertionPoint s) :=
  CInv_of_none (SInv_same hS rfl rfl rfl rfl) rfl

theorem nextBlock_notin {s : FState} (hB : BInv s) :
    s.nextBlock ∉ s.blocks.map Prod.fst := by
  intro h
  obtain ⟨v, hv⟩ := mem_keys.mp h
  exact Nat.lt_irrefl _ (hB.keysLt (s.nextBlock, v) hv)

theorem lookup_createBlock_new {s : FState} (hB : BInv s) (r : Nat) :
    (createBlock s r).2.blocks.lookup s.nextBlock =
      some { region := r, stmts := [], preds := [] } := by
  show (s.blocks ++ [(s.nextBlock, _)]).lookup s.nextBlock = _
  have hnone : s.blocks.lookup s.nextBlock = none := by
    apply lookupA_none
    intro p hp he
    exact nextBlock_notin hB (List.mem_map.mpr ⟨p, hp, he⟩)
  rw [lookupA_append, hnone]
  simp [Option.orElse, List.lookup]

theorem lookup_createBlock_old {s : FState} (r : Nat) {k : Nat} {v : Block}
    (h : s.blocks.lookup k = some v) :
    (createBlock s r).2.blocks.lookup k = some v := by
  show (s.blocks ++ [(s.nextBlock, _)]).lookup k = _
  rw [lookupA_append, h]
  rfl

theorem SInv_createBlock {s : FState} (hS : SInv s) (r : Nat) :
    SInv (createBlock s r).2 := by
  have hkeys : (createBlock s r).2.blocks.map Prod.fst =
      s.blocks.map Prod.fst ++ [s.nextBlock] := by
    show (s.blocks ++ [(s.nextBlock, _)]).map Prod.fst = _
    rw [List.map_append]
    rfl
  have hnotin := nextBlock_notin hS.toBInv
  have hmemcases : ∀ p, p ∈ (createBlock s r).2.blocks →
      p ∈ s.blocks ∨ p = (s.nextBlock, ({ region := r, stmts := [], preds := [] } : Block)) := by
    intro p hp
    rcases List.mem_append.mp hp with h | h
    · exact Or.inl h
    · exact Or.inr (by simpa using h)
  have hemptysucc : Block.termSucc { region := r, stmts := [], preds := [] } = [] := rfl
  refine ⟨⟨?_, ?_, ?_, ?_, ?_, ?_, ?_⟩, ?_, ?_⟩
  · intro p hp
    show p.1 < s.nextBlock + 1
    rcases hmemcases p hp with h | h
    · exact Nat.lt_succ_of_lt (hS.toBInv.keysLt p h)
    · rw [h]
      exact Nat.lt_succ_self _
  · rw [hkeys]
    simp [List.nodup_append, hS.toBInv.keysNodup, hnotin]
  · intro p hp q hq
    rcases hmemcases p hp with h1 | h1 <;> rcases hmemcases q hq with h2 | h2
    · exact hS.toBInv.consistent p h1 q h2
    · rw [h2]
      constructor
      · intro hc
        exact absurd (hS.toBInv.succKeys p h1 _ hc) hnotin
      · intro hc
        simp at hc
    · rw [h1]
      constructor
      · intro hc
        rw [hemptysucc] at hc
        simp at hc
      · intro hc
        exact absurd (hS.toBInv.predKeys q h2 _ hc) hnotin
    · rw [h1, h2]
      constructor
      · intro hc
        rw [hemptysucc] at hc
        simp at hc
      · intro hc
        simp at hc
  · intro p hp
    rcases hmemcases p hp with h | h
    · exact hS.toBInv.predsNodup p h
    · rw [h]
      exact List.nodup_nil
  · intro p hp d hd
    rw [hkeys]
    rcases hmemcases p hp with h | h
    · exact List.mem_append_left _ (hS.toBInv.succKeys p h d hd)
    · rw [h, hemptysucc] at hd
      simp at hd
  · intro p hp d hd
    rw [hkeys]
    rcases hmemcases p hp with h | h
    · exact List.mem_append_left _ (hS.toBInv.predKeys p h d hd)
    · rw [h] at hd
      simp at hd
  · intro q hq
    rw [hkeys]
    exact List.mem_append_left _ (hS.toBInv.mapKeys q hq)
  · intro c hc
    obtain ⟨blk, hl, ht⟩ := hS.closuresOk c hc
    exact ⟨blk, lookup_createBlock_old r hl, ht⟩
  · exact hS.closuresNodup

theorem bindE_ok {α β : Type} (x : α) (f : α → Except String β) :
    (Except.ok x : Except String α) >>= f = f x := rfl

theorem CInv_same {s s' : FState} (hC : CInv s) (hb : s'.blocks = s.blocks)
    (hn : s'.nextBlock = s.nextBlock) (hm : s'.blockMap = s.blockMap)
    (hd : s'.deferred = s.deferred) (hp : s'.insertPt = s.insertPt) : CInv s' := by
  refine ⟨SInv_same hC.toSInv hb hn hm hd, ?_, ?_⟩
  · intro b hbp
    rw [hp] at hbp
    exact unterminated_same hb (hC.curOk b hbp)
  · intro b hbp c hc
    rw [hp] at hbp
    rw [hd] at hc
    exact hC.curFresh b hbp c hc

theorem insertTerminator_SInv {s : FState} {st : IRStmt} {b : Nat}
    (hS : SInv s) (hpt : s.insertPt = some b) (hcur : unterminatedAt s b)
    (hfresh : ∀ c ∈ s.deferred, c.block ≠ b)
    (hsucc : ∀ d ∈ st.succBlocks, d ∈ s.blocks.map Prod.fst)
    (hst : st.isTerminator = true) :
    ∃ s', insertTerminator s st = .ok s' ∧ SInv s' ∧
      s'.blockMap = s.blockMap ∧ s'.deferred = s.deferred ∧
      s'.insertPt = s.insertPt ∧ s'.curRegion = s.curRegion ∧
      s'.nextBlock = s.nextBlock ∧
      s'.blocks.map Prod.fst = s.blocks.map Prod.fst ∧
      (∀ k, k ≠ b → unterminatedAt s k → unterminatedAt s' k) := by
  obtain ⟨blk, hblk, hterm⟩ := hcur
  refine ⟨_, insertTerminator_eq hpt, ?_, rfl, rfl, rfl, rfl, rfl, ?_, ?_⟩
  · exact ⟨BInv_tG hS.toBInv hblk hterm hsucc hst,
      fun c hc => unterminated_tG (hfresh c hc) (hS.closuresOk c hc),
      hS.closuresNodup⟩
  · show (s.blocks.map fun p => (p.1, tG b st p.1 p.2)).map Prod.fst = _
    rw [List.map_map]
    rfl
  · intro k hk h
    exact unterminated_tG hk h

theorem SInv_queue {s : FState} {b : Nat} (hC : CInv s) (hpt : s.insertPt = some b)
    (c : Closure) (hcb : c.block = b) :
    SInv { s with deferred := s.deferred ++ [c] } := by
  refine ⟨BInv_same hC.toSInv.toBInv rfl rfl rfl, ?_, ?_⟩
  · intro c2 hc2
    rcases List.mem_append.mp hc2 with h | h
    · exact unterminated_same rfl (hC.toSInv.closuresOk c2 h)
    · have he : c2 = c := by simpa using h
      rw [he, hcb]
      exact unterminated_same rfl (hC.curOk b hpt)
  · show ((s.deferred ++ [c]).map Closure.block).Nodup
    rw [List.map_append]
    refine List.Nodup.append hC.toSInv.closuresNodup (List.nodup_singleton _) ?_
    intro a ha hb2
    obtain ⟨c2, hc2, he⟩ := List.mem_map.mp ha
    have hab : a = b := by simpa [hcb] using hb2
    exact hC.curFresh b hpt c2 hc2 (he.trans hab)

theorem SInv_bindLabel {s : FState} (hS : SInv s) {l nb : Nat}
    (hnb : nb ∈ s.blocks.map Prod.fst) :
    SInv { s with blockMap := s.blockMap ++ [(l, nb)] } := by
  refine ⟨⟨hS.toBInv.keysLt, hS.toBInv.keysNodup, hS.toBInv.consistent,
    hS.toBInv.predsNodup, hS.toBInv.succKeys, hS.toBInv.predKeys, ?_⟩, ?_, ?_⟩
  · intro q hq
    rcases List.mem_append.mp hq with h | h
    · exact hS.toBInv.mapKeys q h
    · have he : q = (l, nb) := by simpa using h
      rw [he]
      exact hnb
  · intro c hc
    exact unterminated_same rfl (hS.closuresOk c hc)
  · exact hS.closuresNodup

theorem setInsertionPoint_eq {s : FState} {k : Nat} {blk : Block}
    (h : s.blocks.lookup k = some blk) :
    setInsertionPoint s k = .ok { s with insertPt := some k, curRegion := blk.region } := by
  unfold setInsertionPoint
  rw [h]

theorem exitRegion_inv {s s' : FState} (hC : CInv s) (h : exitRegion s = .ok s') :
    CInv s' := by
  unfold exitRegion at h
  rcases hr : s.regions.lookup s.curRegion with _ | r2
  · rw [hr] at h
    simp at h
  · rw [hr] at h
    rcases r2 with _ | r
    · simp at h
    · have he : s' = { s with curRegion := r } := by
        have := Except.ok.inj h
        rw [← this]
      rw [he]
      exact CInv_same hC rfl rfl rfl rfl rfl

theorem checkInsertionPoint_inv {s : FState} (hC : CInv s) :
    CInv (checkInsertionPoint s) ∧ (checkInsertionPoint s).insertPt.isSome = true ∧
      (checkInsertionPoint s).blockMap = s.blockMap ∧
      (checkInsertionPoint s).deferred = s.deferred ∧
      (∀ k v, s.blocks.lookup k = some v →
        (checkInsertionPoint s).blocks.lookup k = some v) ∧
      (∀ b2, (checkInsertionPoint s).insertPt = some b2 →
        s.insertPt = some b2 ∨ b2 = s.nextBlock) := by
  unfold checkInsertionPoint
  rcases hpt : s.insertPt with _ | b
  · show CInv { (createBlock s s.curRegion).2 with insertPt := some (createBlock s s.curRegion).1 } ∧ _
    have hS1 := SInv_createBlock hC.toSInv s.curRegion
    refine ⟨⟨SInv_same hS1 rfl rfl rfl rfl, ?_, ?_⟩, rfl, rfl, rfl, ?_, ?_⟩
    · intro b2 hb2
      have hb2e : b2 = s.nextBlock := by simpa using hb2.symm
      rw [hb2e]
      exact ⟨_, lookup_createBlock_new hC.toSInv.toBInv s.curRegion, rfl⟩
    · intro b2 hb2 c hc
      have hb2e : b2 = s.nextBlock := by simpa using hb2.symm
      rw [hb2e]
      obtain ⟨blk, hl, _⟩ := hC.toSInv.closuresOk c hc
      have hlt := hC.toSInv.toBInv.keysLt (c.block, blk) (lookupA_mem hl)
      exact Nat.ne_of_lt hlt
    · intro k v hkv
      exact lookup_createBlock_old s.curRegion hkv
    · intro b2 hb2
      have hb2e : b2 = s.nextBlock := by simpa using hb2.symm
      exact Or.inr hb2e
  · exact ⟨hC, by rw [hpt]; rfl, rfl, rfl, fun k v hkv => hkv, fun b2 hb2 => Or.inl (hpt.symm.trans hb2)⟩

theorem CInv_createBlock {s : FState} (hC : CInv s) (r : Nat) :
    CInv (createBlock s r).2 := by
  refine ⟨SInv_createBlock hC.toSInv r, ?_, ?_⟩
  · intro b hb
    obtain ⟨blk, hl, ht⟩ := hC.curOk b hb
    exact ⟨blk, lookup_createBlock_old r hl, ht⟩
  · intro b hb c hc
    exact hC.curFresh b hb c hc

theorem BInv_mapEntry {s : FState} (G : Nat → Block → Block)
    (hB : BInv s)
    (hts : ∀ p ∈ s.blocks, (G p.1 p.2).termSucc = p.2.termSucc)
    (hpr : ∀ p ∈ s.blocks, (G p.1 p.2).preds = p.2.preds) :
    BInv { s with blocks := s.blocks.map (fun p => (p.1, G p.1 p.2)) } := by
  have hkeys : ((s.blocks.map fun p => (p.1, G p.1 p.2)).map Prod.fst) =
      s.blocks.map Prod.fst := by
    rw [List.map_map]
    rfl
  constructor
  · intro p' hp'
    obtain ⟨p, hp, rfl⟩ := List.mem_map.mp hp'
    exact hB.keysLt p hp
  · show ((s.blocks.map fun p => (p.1, G p.1 p.2)).map Prod.fst).Nodup
    rw [hkeys]
    exact hB.keysNodup
  · intro p' hp' q' hq'
    obtain ⟨p, hp, rfl⟩ := List.mem_map.mp hp'
    obtain ⟨q, hq, rfl⟩ := List.mem_map.mp hq'
    dsimp only
    rw [hts p hp, hpr q hq]
    exact hB.consistent p hp q hq
  · intro p' hp'
    obtain ⟨p, hp, rfl⟩ := List.mem_map.mp hp'
    show (G p.1 p.2).preds.Nodup
    rw [hpr p hp]
    exact hB.predsNodup p hp
  · intro p' hp' d hd
    obtain ⟨p, hp, rfl⟩ := List.mem_map.mp hp'
    show d ∈ (s.blocks.map fun p => (p.1, G p.1 p.2)).map Prod.fst
    rw [hkeys]
    rw [show (p.1, G p.1 p.2).2 = G p.1 p.2 from rfl, hts p hp] at hd
    exact hB.succKeys p hp d hd
  · intro p' hp' d hd
    obtain ⟨p, hp, rfl⟩ := List.mem_map.mp hp'
    show d ∈ (s.blocks.map fun p => (p.1, G p.1 p.2)).map Prod.fst
    rw [hkeys]
    rw [show (p.1, G p.1 p.2).2 = G p.1 p.2 from rfl, hpr p hp] at hd
    exact hB.predKeys p hp d hd
  · intro q hq
    show q.2 ∈ (s.blocks.map fun p => (p.1, G p.1 p.2)).map Prod.fst
    rw [hkeys]
    exact hB.mapKeys q hq

theorem unterminated_mapEntry {s : FState} (G : Nat → Block → Block)
    (hterm2 : ∀ p ∈ s.blocks, (G p.1 p.2).terminated = p.2.terminated)
    {k : Nat} (h : unterminatedAt s k) :
    unterminatedAt { s with blocks := s.blocks.map (fun p => (p.1, G p.1 p.2)) } k := by
  obtain ⟨blk, hl, ht⟩ := h
  refine ⟨G k blk, ?_, ?_⟩
  · show (s.blocks.map fun p => (p.1, G p.1 p.2)).lookup k = some (G k blk)
    rw [lookup_mapEntry, hl]
    rfl
  · exact (hterm2 (k, blk) (lookupA_mem hl)).trans ht

theorem insertStmt_action {s : FState} {b : Nat} (hC : CInv s) (hpt : s.insertPt = some b) :
    ∃ s', insertStmt s .action = .ok s' ∧ CInv s' ∧ s'.insertPt = s.insertPt ∧
      s'.blockMap = s.blockMap ∧ s'.deferred = s.deferred ∧
      s'.blocks.map Prod.fst = s.blocks.map Prod.fst ∧ s'.nextBlock = s.nextBlock ∧
      s'.curRegion = s.curRegion := by
  obtain ⟨blk, hblk, hterm⟩ := hC.curOk b hpt
  have hentry := entry_eq_of_lookup hC.toSInv.toBInv.keysNodup hblk
  have hshape : insertStmt s .action = .ok { s with blocks := s.blocks.map (fun p => (p.1, if p.1 = b then { p.2 with stmts := p.2.stmts ++ [IRStmt.action] } else p.2)) } := by
    obtain ⟨bks, nb, regs, nr, cr, ipt, bm, df, dm⟩ := s
    dsimp only at hpt
    subst hpt
    exact congrArg
      (fun x => Except.ok (⟨x, nb, regs, nr, cr, some b, bm, df, dm⟩ : FState))
      (updBlock_eq bks b _)
  have hts : ∀ p ∈ s.blocks,
      ((if p.1 = b then { p.2 with stmts := p.2.stmts ++ [IRStmt.action] } else p.2)).termSucc =
        p.2.termSucc := by
    intro p hp
    by_cases h : p.1 = b
    · rw [if_pos h, hentry p hp h, append_action_termSucc,
        termSucc_of_unterminated hterm]
    · rw [if_neg h]
  have hpr : ∀ p ∈ s.blocks,
      ((if p.1 = b then { p.2 with stmts := p.2.stmts ++ [IRStmt.action] } else p.2)).preds =
        p.2.preds := by
    intro p hp
    by_cases h : p.1 = b
    · rw [if_pos h]
    · rw [if_neg h]
  have hterm2 : ∀ p ∈ s.blocks,
      ((if p.1 = b then { p.2 with stmts := p.2.stmts ++ [IRStmt.action] } else p.2)).terminated =
        p.2.terminated := by
    intro p hp
    by_cases h : p.1 = b
    · rw [if_pos h, hentry p hp h, append_action_terminated, hterm]
    · rw [if_neg h]
  refine ⟨_, hshape, ?_, rfl, rfl, rfl, ?_, rfl, rfl⟩
  · refine ⟨⟨BInv_mapEntry (fun k v => if k = b then { v with stmts := v.stmts ++ [IRStmt.action] } else v) hC.toSInv.toBInv hts hpr, ?_, hC.toSInv.closuresNodup⟩, ?_, ?_⟩
    · intro c hc
      exact unterminated_mapEntry (fun k v => if k = b then { v with stmts := v.stmts ++ [IRStmt.action] } else v) hterm2 (hC.toSInv.closuresOk c hc)
    · intro b2 hb2
      exact unterminated_mapEntry (fun k v => if k = b then { v with stmts := v.stmts ++ [IRStmt.action] } else v) hterm2 (hC.curOk b2 hb2)
    · intro b2 hb2 c hc
      exact hC.curFresh b2 hb2 c hc
  · show (s.blocks.map _).map Prod.fst = _
    rw [List.map_map]
    rfl

theorem insertActions_inv : ∀ (n : Nat) {s : FState} {b : Nat},
    CInv s → s.insertPt = some b →
    ∃ s', insertActions s n = .ok s' ∧ CInv s' ∧ s'.insertPt = s.insertPt ∧
      s'.blockMap = s.blockMap ∧ s'.deferred = s.deferred ∧
      s'.blocks.map Prod.fst = s.blocks.map Prod.fst ∧ s'.nextBlock = s.nextBlock ∧
      s'.curRegion = s.curRegion := by
  intro n
  induction n with
  | zero =>
    intro s b hC _
    exact ⟨s, rfl, hC, rfl, rfl, rfl, rfl, rfl, rfl⟩
  | succ m ih =>
    intro s b hC hpt
    obtain ⟨s1, h1, hC1, hp1, hm1, hd1, hk1, hn1, hr1⟩ := insertStmt_action hC hpt
    obtain ⟨s2, h2, hC2, hp2, hm2, hd2, hk2, hn2, hr2⟩ := ih hC1 (hp1.trans hpt)
    refine ⟨s2, ?_, hC2, hp2.trans hp1, hm2.trans hm1, hd2.trans hd1,
      hk2.trans hk1, hn2.trans hn1, hr2.trans hr1⟩
    show insertActions s (m + 1) = .ok s2
    unfold insertActions
    rw [h1, bindE_ok]
    exact h2

theorem enterRegion_inv {s : FState} (hC : CInv s) :
    ∃ s', enterRegion s = .ok s' ∧ CInv s' ∧ s'.blockMap = s.blockMap ∧
      s'.deferred = s.deferred ∧ s'.insertPt = some s.nextBlock := by
  have hC0 : CInv { s with regions := s.regions ++ [(s.nextRegion, some s.curRegion)], nextRegion := s.nextRegion + 1 } :=
    CInv_same hC rfl rfl rfl rfl rfl
  have hC1 := CInv_createBlock hC0 s.nextRegion
  obtain ⟨hC2, hsome2, hm2, hd2, hpres2, hcase2⟩ := checkInsertionPoint_inv hC1
  obtain ⟨cpt, hcpt⟩ := Option.isSome_iff_exists.mp hsome2
  have hlk1 := lookup_createBlock_new hC0.toSInv.toBInv s.nextRegion
  have hlk2 := hpres2 _ _ hlk1
  have hsucc : ∀ d ∈ (IRStmt.branch s.nextBlock).succBlocks,
      d ∈ (checkInsertionPoint (createBlock { s with regions := s.regions ++ [(s.nextRegion, some s.curRegion)], nextRegion := s.nextRegion + 1 } s.nextRegion).2).blocks.map Prod.fst := by
    intro d hd
    have hde : d = s.nextBlock := by simpa [IRStmt.succBlocks] using hd
    rw [hde]
    exact mem_keys.mpr ⟨_, lookupA_mem hlk2⟩
  obtain ⟨s3, h3, hS3, hm3, hd3, hp3, hr3, hn3, hk3, hpres3⟩ :=
    insertTerminator_SInv hC2.toSInv hcpt (hC2.curOk cpt hcpt)
      (hC2.curFresh cpt hcpt) hsucc rfl
  have hne : s.nextBlock ≠ cpt := by
    rcases hcase2 cpt hcpt with h | h
    · obtain ⟨blk0, hl0, _⟩ := hC.curOk cpt h
      exact (Nat.ne_of_lt (hC.toSInv.toBInv.keysLt (cpt, blk0) (lookupA_mem hl0))).symm
    · rw [h]
      exact Nat.ne_of_lt (Nat.lt_succ_self _)
  have hut3 : unterminatedAt s3 s.nextBlock := hpres3 s.nextBlock hne ⟨_, hlk2, rfl⟩
  obtain ⟨blk3, hl3, ht3⟩ := hut3
  refine ⟨{ s3 with insertPt := some s.nextBlock, curRegion := blk3.region }, ?_, ?_, ?_, ?_, rfl⟩
  · show enterRegion s = _
    have hrun : enterRegion s =
        insertTerminator (checkInsertionPoint (createBlock { s with regions := s.regions ++ [(s.nextRegion, some s.curRegion)], nextRegion := s.nextRegion + 1 } s.nextRegion).2) (.branch s.nextBlock) >>= fun t => setInsertionPoint t s.nextBlock := rfl
    rw [hrun, h3, bindE_ok, setInsertionPoint_eq hl3]
  · refine ⟨SInv_same hS3 rfl rfl rfl rfl, ?_, ?_⟩
    · intro b2 hb2
      have hb2e : b2 = s.nextBlock := by simpa using hb2.symm
      rw [hb2e]
      exact unterminated_same rfl ⟨blk3, hl3, ht3⟩
    · intro b2 hb2 c hc
      have hb2e : b2 = s.nextBlock := by simpa using hb2.symm
      rw [hb2e]
      have hc2 : c ∈ s.deferred := by
        have h1 : s.deferred = s3.deferred := (hd3.trans hd2).symm
        rw [h1]
        exact hc
      obtain ⟨blk0, hl0, _⟩ := hC.toSInv.closuresOk c hc2
      exact Nat.ne_of_lt (hC.toSInv.toBInv.keysLt (c.block, blk0) (lookupA_mem hl0))
  · exact hm3.trans hm2
  · exact hd3.trans hd2

theorem lookupAll_mem {m : List (Nat × Nat)} :
    ∀ {ls : List Nat} {bs : List Nat}, lookupAll m ls = some bs →
      ∀ x ∈ bs, ∃ l, m.lookup l = some x := by
  intro ls
  induction ls with
  | nil =>
    intro bs h x hx
    have hb : bs = [] := by simpa [lookupAll] using h.symm
    rw [hb] at hx
    simp at hx
  | cons l ls ih =>
    intro bs h x hx
    rcases hm1 : m.lookup l with _ | b1
    · simp [lookupAll, hm1] at h
    · rcases hr : lookupAll m ls with _ | bs1
      · simp [lookupAll, hm1, hr] at h
      · simp [lookupAll, hm1, hr] at h
        rw [← h] at hx
        rcases List.mem_cons.mp hx with he | hx2
        · rw [he]
          exact ⟨l, hm1⟩
        · exact ih hr x hx2

theorem addOrQueueBranch_inv {s : FState} {target b : Nat} (hC : CInv s)
    (hpt : s.insertPt = some b) :
    ∃ s', addOrQueueBranch s target = .ok s' ∧ SInv s' := by
  rcases hl : s.blockMap.lookup target with _ | tb
  · refine ⟨_, ?_, SInv_queue hC hpt (.branchFix b target) rfl⟩
    show addOrQueueBranch s target = _
    unfold addOrQueueBranch
    rw [hl, hpt]
  · have htb := hC.toSInv.toBInv.mapKeys (target, tb) (lookupA_mem hl)
    have hsucc : ∀ d ∈ (IRStmt.branch tb).succBlocks, d ∈ s.blocks.map Prod.fst := by
      intro d hd
      have hde : d = tb := by simpa [IRStmt.succBlocks] using hd
      rw [hde]
      exact htb
    obtain ⟨s', h', hS', _⟩ := insertTerminator_SInv hC.toSInv hpt (hC.curOk b hpt)
      (hC.curFresh b hpt) hsucc rfl
    refine ⟨s', ?_, hS'⟩
    unfold addOrQueueBranch
    rw [hl]
    exact h'

theorem addOrQueueCGoto_inv {s : FState} {t f b : Nat} (hC : CInv s)
    (hpt : s.insertPt = some b) :
    ∃ s', addOrQueueCGoto s t f = .ok s' ∧ SInv s' := by
  rcases hlt : s.blockMap.lookup t with _ | tb
  · refine ⟨_, ?_, SInv_queue hC hpt (.condFix b t f) rfl⟩
    show addOrQueueCGoto s t f = _
    unfold addOrQueueCGoto
    rw [hlt, hpt]
  · rcases hlf : s.blockMap.lookup f with _ | fb
    · refine ⟨_, ?_, SInv_queue hC hpt (.condFix b t f) rfl⟩
      show addOrQueueCGoto s t f = _
      unfold addOrQueueCGoto
      rw [hlt, hlf, hpt]
    · have hsucc : ∀ d ∈ (IRStmt.condBranch tb fb).succBlocks,
          d ∈ s.blocks.map Prod.fst := by
        intro d hd
        have hde : d = tb ∨ d = fb := by simpa [IRStmt.succBlocks] using hd
        rcases hde with he | he <;> rw [he]
        · exact hC.toSInv.toBInv.mapKeys (t, tb) (lookupA_mem hlt)
        · exact hC.toSInv.toBInv.mapKeys (f, fb) (lookupA_mem hlf)
      obtain ⟨s', h', hS', _⟩ := insertTerminator_SInv hC.toSInv hpt (hC.curOk b hpt)
        (hC.curFresh b hpt) hsucc rfl
      refine ⟨s', ?_, hS'⟩
      unfold addOrQueueCGoto
      rw [hlt, hlf]
      exact h'

theorem addOrQueueSwitch_inv {s : FState} {defaultLabel b : Nat} {labels : List Nat}
    (hC : CInv s) (hpt : s.insertPt = some b) :
    ∃ s', addOrQueueSwitch s defaultLabel labels = .ok s' ∧ SInv s' := by
  rcases hld : s.blockMap.lookup defaultLabel with _ | db
  · refine ⟨_, ?_, SInv_queue hC hpt (.switchFix b defaultLabel labels) rfl⟩
    show addOrQueueSwitch s defaultLabel labels = _
    unfold addOrQueueSwitch
    rw [hld, hpt]
  · rcases hla : lookupAll s.blockMap labels with _ | cs
    · refine ⟨_, ?_, SInv_queue hC hpt (.switchFix b defaultLabel labels) rfl⟩
      show addOrQueueSwitch s defaultLabel labels = _
      unfold addOrQueueSwitch
      rw [hld, hla, hpt]
    · have hsucc : ∀ d ∈ (IRStmt.switchTerm db cs).succBlocks,
          d ∈ s.blocks.map Prod.fst := by
        intro d hd
        have hde : d = db ∨ d ∈ cs := by simpa [IRStmt.succBlocks] using hd
        rcases hde with he | he
        · rw [he]
          exact hC.toSInv.toBInv.mapKeys (defaultLabel, db) (lookupA_mem hld)
        · obtain ⟨l, hlx⟩ := lookupAll_mem hla d he
          exact hC.toSInv.toBInv.mapKeys (l, d) (lookupA_mem hlx)
      obtain ⟨s', h', hS', _⟩ := insertTerminator_SInv hC.toSInv hpt (hC.curOk b hpt)
        (hC.curFresh b hpt) hsucc rfl
      refine ⟨s', ?_, hS'⟩
      unfold addOrQueueSwitch
      rw [hld, hla]
      exact h'

theorem addOrQueueIGoto_inv {s : FState} {ad : AnalysisData} {symbol b : Nat}
    {labels : List Nat} (hC : CInv s) (hpt : s.insertPt = some b) :
    ∃ s', addOrQueueIGoto s ad symbol labels = .ok s' ∧ SInv s' := by
  have hrun : addOrQueueIGoto s ad symbol labels =
      match lookupAll s.blockMap (if labels.isEmpty then GetAssign ad symbol else labels) with
      | some bs => insertTerminator s (.indirectBr bs)
      | none =>
        match s.insertPt with
        | none => .error "queued indirect branch with no insertion point"
        | some here => .ok { s with deferred := s.deferred ++ [.igotoFixme here] } := rfl
  rcases hla : lookupAll s.blockMap (if labels.isEmpty then GetAssign ad symbol else labels)
    with _ | bs
  · refine ⟨_, ?_, SInv_queue hC hpt (.igotoFixme b) rfl⟩
    show addOrQueueIGoto s ad symbol labels = _
    rw [hrun, hla, hpt]
  · have hsucc : ∀ d ∈ (IRStmt.indirectBr bs).succBlocks,
        d ∈ s.blocks.map Prod.fst := by
      intro d hd
      have hde : d ∈ bs := by simpa [IRStmt.succBlocks] using hd
      obtain ⟨l, hlx⟩ := lookupAll_mem hla d hde
      exact hC.toSInv.toBInv.mapKeys (l, d) (lookupA_mem hlx)
    obtain ⟨s', h', hS', _⟩ := insertTerminator_SInv hC.toSInv hpt (hC.curOk b hpt)
      (hC.curFresh b hpt) hsucc rfl
    refine ⟨s', ?_, hS'⟩
    rw [hrun, hla]
    exact h'

theorem handleAction_inv {s : FState} {ad : AnalysisData} {st : ActStmt} {b : Nat}
    {s' : FState} {ad' : AnalysisData} (hC : CInv s) (hpt : s.insertPt = some b)
    (h : handleAction s ad st = .ok (s', ad')) : CInv s' := by
  cases st with
  | assignment =>
    obtain ⟨s1, h1, hC1, _, _, _, _, _, _⟩ := insertActions_inv 3 hC hpt
    have hfinal : handleAction s ad .assignment = .ok (s1, ad) := by
      have hrun : handleAction s ad .assignment =
          insertActions s 3 >>= fun t => .ok (t, ad) := rfl
      rw [hrun, h1, bindE_ok]
    rw [hfinal] at h
    injection h with h2
    injection h2 with ha hb
    rw [← ha]
    exact hC1
  | readStmt e o n =>
    obtain ⟨s1, h1, hC1, _, _, _, _, _, _⟩ := insertStmt_action hC hpt
    have hfinal : handleAction s ad (.readStmt e o n) = .ok (s1, ad) := by
      have hrun : handleAction s ad (.readStmt e o n) =
          insertStmt s .action >>= fun t => .ok (t, ad) := rfl
      rw [hrun, h1, bindE_ok]
    rw [hfinal] at h
    injection h with h2
    injection h2 with ha hb
    rw [← ha]
    exact hC1
  | assignStmt v lbl =>
    obtain ⟨s1, h1, hC1, hp1, _, _, _, _, _⟩ := insertStmt_action hC hpt
    have hrun : handleAction s ad (.assignStmt v lbl) =
        insertStmt s .action >>= fun t =>
          (match t.blockMap.lookup (FetchLabel ad lbl).1 with
           | none => .error "map.find past the end: ASSIGN label has no block"
           | some _ => insertStmt t .action >>= fun u =>
               .ok (u, (FetchLabel ad lbl).2)) := rfl
    rcases hm : s1.blockMap.lookup (FetchLabel ad lbl).1 with _ | w
    · have hfinal : handleAction s ad (.assignStmt v lbl) =
          .error "map.find past the end: ASSIGN label has no block" := by
        rw [hrun, h1, bindE_ok, hm]
      rw [hfinal] at h
      exact Except.noConfusion h
    · obtain ⟨s2, h2, hC2, _, _, _, _, _, _⟩ := insertStmt_action hC1 (hp1.trans hpt)
      have hfinal : handleAction s ad (.assignStmt v lbl) =
          .ok (s2, (FetchLabel ad lbl).2) := by
        rw [hrun, h1, bindE_ok, hm]
        show insertStmt s1 .action >>= (fun u => .ok (u, (FetchLabel ad lbl).2)) =
          .ok (s2, (FetchLabel ad lbl).2)
        rw [h2, bindE_ok]
      rw [hfinal] at h
      injection h with h2b
      injection h2b with ha hb
      rw [← ha]
      exact hC2
  | assignedGoto v ls => exact Except.noConfusion h
  | gotoStmt l => exact Except.noConfusion h
  | cycle n => exact Except.noConfusion h
  | exitStmt n => exact Except.noConfusion h

theorem bindE_err {α β : Type} (e : String) (f : α → Except String β) :
    (Except.error e : Except String α) >>= f = Except.error e := rfl

theorem bindE_pure {α β : Type} (x : α) (f : α → Except String β) :
    (pure x : Except String α) >>= f = f x := rfl

theorem processEnd_inv {s s' : FState} {k : CKind} {cid : Nat} {counted : Bool}
    (hC : CInv s) (h : processEnd s k cid counted = .ok s') : CInv s' := by
  cases k with
  | blockK => exact exitRegion_inv hC h
  | associate => exact exitRegion_inv hC h
  | changeTeam => exact exitRegion_inv hC h
  | selectType => exact exitRegion_inv hC h
  | doK =>
    have hC2 : CInv (if counted = true then { s with doMap := s.doMap.erase cid } else s) := by
      split
      · exact CInv_same hC rfl rfl rfl rfl rfl
      · exact hC
    exact exitRegion_inv hC2 h
  | caseK =>
    have he : s' = s := (Except.ok.inj h).symm
    rw [he]
    exact hC
  | critical =>
    have he : s' = s := (Except.ok.inj h).symm
    rw [he]
    exact hC
  | ifK =>
    have he : s' = s := (Except.ok.inj h).symm
    rw [he]
    exact hC
  | selectRank =>
    have he : s' = s := (Except.ok.inj h).symm
    rw [he]
    exact hC
  | whereK =>
    have he : s' = s := (Except.ok.inj h).symm
    rw [he]
    exact hC
  | forallK =>
    have he : s' = s := (Except.ok.inj h).symm
    rw [he]
    exact hC

theorem labelBind_inv {s : FState} (hC : CInv s) (l nb2 : Nat)
    (hnb : nb2 ∈ s.blocks.map Prod.fst) :
    CInv { s with blockMap := if (s.blockMap.lookup l).isSome then s.blockMap else s.blockMap ++ [(l, nb2)] } := by
  by_cases hbm : (s.blockMap.lookup l).isSome = true
  · rw [if_pos hbm]
    exact hC
  · rw [if_neg hbm]
    refine ⟨SInv_bindLabel hC.toSInv hnb, ?_, ?_⟩
    · intro b2 hb2
      exact unterminated_same rfl (hC.curOk b2 hb2)
    · intro b2 hb2 c hc
      exact hC.curFresh b2 hb2 c hc

theorem processOp_inv {s : FState} {ad : AnalysisData} {op : LinOp} {s' : FState}
    {ad' : AnalysisData} (hC : CInv s) (h : processOp s ad op = .ok (s', ad')) :
    CInv s' := by
  cases op with
  | label l =>
    obtain ⟨bks, nxb, regs, nr, cr, ipt, bm, df, dm⟩ := s
    rcases ipt with _ | cpt
    · have hC1 := CInv_createBlock hC cr
      have hlknb := lookup_createBlock_new hC.toSInv.toBInv cr
      have hC2 := labelBind_inv hC1 l nxb (mem_keys.mpr ⟨_, lookupA_mem hlknb⟩)
      have hlk2 : ({ (createBlock (FState.mk bks nxb regs nr cr none bm df dm) cr).2 with blockMap := if ((createBlock (FState.mk bks nxb regs nr cr none bm df dm) cr).2.blockMap.lookup l).isSome then (createBlock (FState.mk bks nxb regs nr cr none bm df dm) cr).2.blockMap else (createBlock (FState.mk bks nxb regs nr cr none bm df dm) cr).2.blockMap ++ [(l, nxb)] } : FState).blocks.lookup nxb =
          some { region := cr, stmts := [], preds := [] } := hlknb
      have h2 : setInsertionPoint ({ (createBlock (FState.mk bks nxb regs nr cr none bm df dm) cr).2 with blockMap := if ((createBlock (FState.mk bks nxb regs nr cr none bm df dm) cr).2.blockMap.lookup l).isSome then (createBlock (FState.mk bks nxb regs nr cr none bm df dm) cr).2.blockMap else (createBlock (FState.mk bks nxb regs nr cr none bm df dm) cr).2.blockMap ++ [(l, nxb)] } : FState) nxb >>=
          (fun u => (Except.ok (u, ad) : Except String (FState × AnalysisData))) =
          Except.ok (s', ad') := h
      rw [setInsertionPoint_eq hlk2, bindE_ok] at h2
      injection h2 with h3
      injection h3 with ha hb
      rw [← ha]
      refine ⟨SInv_same hC2.toSInv rfl rfl rfl rfl, ?_, ?_⟩
      · intro b2 hb2
        have hbe : b2 = nxb := by simpa using hb2.symm
        rw [hbe]
        exact unterminated_same rfl ⟨_, hlk2, rfl⟩
      · intro b2 hb2 c hc
        have hbe : b2 = nxb := by simpa using hb2.symm
        rw [hbe]
        have hc2 : c ∈ FState.deferred (FState.mk bks nxb regs nr cr none bm df dm) := hc
        obtain ⟨blk0, hl0, _⟩ := hC.toSInv.closuresOk c hc2
        exact Nat.ne_of_lt (hC.toSInv.toBInv.keysLt (c.block, blk0) (lookupA_mem hl0))
    · have hC1 := CInv_createBlock hC cr
      have hlknb := lookup_createBlock_new hC.toSInv.toBInv cr
      have hC2 := labelBind_inv hC1 l nxb (mem_keys.mpr ⟨_, lookupA_mem hlknb⟩)
      have hlk2 : ({ (createBlock (FState.mk bks nxb regs nr cr (some cpt) bm df dm) cr).2 with blockMap := if ((createBlock (FState.mk bks nxb regs nr cr (some cpt) bm df dm) cr).2.blockMap.lookup l).isSome then (createBlock (FState.mk bks nxb regs nr cr (some cpt) bm df dm) cr).2.blockMap else (createBlock (FState.mk bks nxb regs nr cr (some cpt) bm df dm) cr).2.blockMap ++ [(l, nxb)] } : FState).blocks.lookup nxb =
          some { region := cr, stmts := [], preds := [] } := hlknb
      have hsucc : ∀ d ∈ (IRStmt.branch nxb).succBlocks,
          d ∈ ({ (createBlock (FState.mk bks nxb regs nr cr (some cpt) bm df dm) cr).2 with blockMap := if ((createBlock (FState.mk bks nxb regs nr cr (some cpt) bm df dm) cr).2.blockMap.lookup l).isSome then (createBlock (FState.mk bks nxb regs nr cr (some cpt) bm df dm) cr).2.blockMap else (createBlock (FState.mk bks nxb regs nr cr (some cpt) bm df dm) cr).2.blockMap ++ [(l, nxb)] } : FState).blocks.map Prod.fst := by
        intro d hd
        have hde : d = nxb := by simpa [IRStmt.succBlocks] using hd
        rw [hde]
        exact mem_keys.mpr ⟨_, lookupA_mem hlk2⟩
      obtain ⟨s3, h3, hS3, hm3, hd3, hp3, hr3, hn3, hk3, hpres3⟩ :=
        insertTerminator_SInv hC2.toSInv (rfl : ({ (createBlock (FState.mk bks nxb regs nr cr (some cpt) bm df dm) cr).2 with blockMap := if ((createBlock (FState.mk bks nxb regs nr cr (some cpt) bm df dm) cr).2.blockMap.lookup l).isSome then (createBlock (FState.mk bks nxb regs nr cr (some cpt) bm df dm) cr).2.blockMap else (createBlock (FState.mk bks nxb regs nr cr (some cpt) bm df dm) cr).2.blockMap ++ [(l, nxb)] } : FState).insertPt = some cpt)
          (hC2.curOk cpt rfl) (hC2.curFresh cpt rfl) hsucc rfl
      have hne : nxb ≠ cpt := by
        obtain ⟨blk0, hl0, _⟩ := hC.curOk cpt rfl
        exact (Nat.ne_of_lt (hC.toSInv.toBInv.keysLt (cpt, blk0) (lookupA_mem hl0))).symm
      have hut3 : unterminatedAt s3 nxb := hpres3 _ hne ⟨_, hlk2, rfl⟩
      obtain ⟨blk3, hl3, ht3⟩ := hut3
      have h2 : (insertTerminator ({ (createBlock (FState.mk bks nxb regs nr cr (some cpt) bm df dm) cr).2 with blockMap := if ((createBlock (FState.mk bks nxb regs nr cr (some cpt) bm df dm) cr).2.blockMap.lookup l).isSome then (createBlock (FState.mk bks nxb regs nr cr (some cpt) bm df dm) cr).2.blockMap else (createBlock (FState.mk bks nxb regs nr cr (some cpt) bm df dm) cr).2.blockMap ++ [(l, nxb)] } : FState) (.branch nxb) >>= fun t =>
          (setInsertionPoint t nxb >>= fun u =>
            (Except.ok (u, ad) : Except String (FState × AnalysisData)))) =
          Except.ok (s', ad') := h
      rw [h3, bindE_ok, setInsertionPoint_eq hl3, bindE_ok] at h2
      injection h2 with h3b
      injection h3b with ha hb
      rw [← ha]
      refine ⟨SInv_same hS3 rfl rfl rfl rfl, ?_, ?_⟩
      · intro b2 hb2
        have hbe : b2 = nxb := by simpa using hb2.symm
        rw [hbe]
        exact unterminated_same rfl ⟨blk3, hl3, ht3⟩
      · intro b2 hb2 c hc
        have hbe : b2 = nxb := by simpa using hb2.symm
        rw [hbe]
        have hc2 : c ∈ FState.deferred (FState.mk bks nxb regs nr cr (some cpt) bm df dm) := by
          have he2 : FState.deferred (FState.mk bks nxb regs nr cr (some cpt) bm df dm) =
              s3.deferred := hd3.symm
          rw [he2]
          exact hc
        obtain ⟨blk0, hl0, _⟩ := hC.toSInv.closuresOk c hc2
        exact Nat.ne_of_lt (hC.toSInv.toBInv.keysLt (c.block, blk0) (lookupA_mem hl0))
  | gotoOp target =>
    obtain ⟨hC1, hsome1, _, _, _, _⟩ := checkInsertionPoint_inv hC
    obtain ⟨cpt, hcpt⟩ := Option.isSome_iff_exists.mp hsome1
    obtain ⟨s2, h2, hS2⟩ := addOrQueueBranch_inv hC1 hcpt
    have hfinal : processOp s ad (.gotoOp target) = .ok (clearInsertionPoint s2, ad) := by
      have hrun : processOp s ad (.gotoOp target) =
          addOrQueueBranch (checkInsertionPoint s) target >>= fun t =>
            .ok (clearInsertionPoint t, ad) := rfl
      rw [hrun, h2, bindE_ok]
    rw [hfinal] at h
    injection h with h2b
    injection h2b with ha hb
    rw [← ha]
    exact CInv_clear hS2
  | retOp =>
    obtain ⟨hC1, hsome1, _, _, _, _⟩ := checkInsertionPoint_inv hC
    obtain ⟨cpt, hcpt⟩ := Option.isSome_iff_exists.mp hsome1
    obtain ⟨s2, h2, hC2, hp2, _, _, _, _, _⟩ := insertStmt_action hC1 hcpt
    have hsucc : ∀ d ∈ IRStmt.retStmt.succBlocks, d ∈ s2.blocks.map Prod.fst := by
      intro d hd
      simp [IRStmt.succBlocks] at hd
    obtain ⟨s3, h3, hS3, _⟩ := insertTerminator_SInv hC2.toSInv (hp2.trans hcpt)
      (hC2.curOk cpt (hp2.trans hcpt)) (hC2.curFresh cpt (hp2.trans hcpt)) hsucc rfl
    have hfinal : processOp s ad .retOp = .ok (clearInsertionPoint s3, ad) := by
      have hrun : processOp s ad .retOp =
          insertStmt (checkInsertionPoint s) .action >>= fun t =>
            (insertTerminator t .retStmt >>= fun u => .ok (clearInsertionPoint u, ad)) := rfl
      rw [hrun, h2, bindE_ok, h3, bindE_ok]
    rw [hfinal] at h
    injection h with h2b
    injection h2b with ha hb
    rw [← ha]
    exact CInv_clear hS3
  | condGoto t f latchDo =>
    obtain ⟨hC1, hsome1, _, _, _, _⟩ := checkInsertionPoint_inv hC
    obtain ⟨cpt, hcpt⟩ := Option.isSome_iff_exists.mp hsome1
    cases latchDo with
    | none =>
      obtain ⟨s2, h2, hC2, hp2, _, _, _, _, _⟩ := insertStmt_action hC1 hcpt
      obtain ⟨s3, h3, hS3⟩ := addOrQueueCGoto_inv hC2 (hp2.trans hcpt)
      have hfinal : processOp s ad (.condGoto t f none) =
          .ok (clearInsertionPoint s3, ad) := by
        have hrun : processOp s ad (.condGoto t f none) =
            insertStmt (checkInsertionPoint s) .action >>= fun u =>
              (addOrQueueCGoto u t f >>= fun w => .ok (clearInsertionPoint w, ad)) := rfl
        rw [hrun, h2, bindE_ok, h3, bindE_ok]
      rw [hfinal] at h
      injection h with h2b
      injection h2b with ha hb
      rw [← ha]
      exact CInv_clear hS3
    | some cid =>
      by_cases hcid : cid ∈ (checkInsertionPoint s).doMap
      · obtain ⟨s3, h3, hS3⟩ := addOrQueueCGoto_inv hC1 hcpt
        have h2 : (if cid ∈ (checkInsertionPoint s).doMap then
              addOrQueueCGoto (checkInsertionPoint s) t f >>= fun w =>
                (Except.ok (clearInsertionPoint w, ad) : Except String (FState × AnalysisData))
            else .error "map.find past the end: DO context not present") =
            Except.ok (s', ad') := h
        rw [if_pos hcid, h3, bindE_ok] at h2
        injection h2 with h2b
        injection h2b with ha hb
        rw [← ha]
        exact CInv_clear hS3
      · have h2 : (if cid ∈ (checkInsertionPoint s).doMap then
              addOrQueueCGoto (checkInsertionPoint s) t f >>= fun w =>
                (Except.ok (clearInsertionPoint w, ad) : Except String (FState × AnalysisData))
            else .error "map.find past the end: DO context not present") =
            Except.ok (s', ad') := h
        rw [if_neg hcid] at h2
        exact Except.noConfusion h2
  | ioSwitch next errRef eorRef endRef =>
    obtain ⟨hC1, hsome1, _, _, _, _⟩ := checkInsertionPoint_inv hC
    obtain ⟨cpt, hcpt⟩ := Option.isSome_iff_exists.mp hsome1
    obtain ⟨s2, h2, hS2⟩ := addOrQueueSwitch_inv hC1 hcpt
    have hfinal : processOp s ad (.ioSwitch next errRef eorRef endRef) =
        .ok (clearInsertionPoint s2, ad) := by
      have hrun : processOp s ad (.ioSwitch next errRef eorRef endRef) =
          addOrQueueSwitch (checkInsertionPoint s) next [] >>= fun t =>
            .ok (clearInsertionPoint t, ad) := rfl
      rw [hrun, h2, bindE_ok]
    rw [hfinal] at h
    injection h with h2b
    injection h2b with ha hb
    rw [← ha]
    exact CInv_clear hS2
  | igoto symbol labels =>
    obtain ⟨hC1, hsome1, _, _, _, _⟩ := checkInsertionPoint_inv hC
    obtain ⟨cpt, hcpt⟩ := Option.isSome_iff_exists.mp hsome1
    obtain ⟨s2, h2, hS2⟩ := addOrQueueIGoto_inv hC1 hcpt
    have hfinal : processOp s ad (.igoto symbol labels) =
        .ok (clearInsertionPoint s2, ad) := by
      have hrun : processOp s ad (.igoto symbol labels) =
          addOrQueueIGoto (checkInsertionPoint s) ad symbol labels >>= fun t =>
            .ok (clearInsertionPoint t, ad) := rfl
      rw [hrun, h2, bindE_ok]
    rw [hfinal] at h
    injection h with h2b
    injection h2b with ha hb
    rw [← ha]
    exact CInv_clear hS2
  | action st =>
    obtain ⟨hC1, hsome1, _, _, _, _⟩ := checkInsertionPoint_inv hC
    obtain ⟨cpt, hcpt⟩ := Option.isSome_iff_exists.mp hsome1
    have hrun : processOp s ad (.action st) = handleAction (checkInsertionPoint s) ad st := rfl
    rw [hrun] at h
    exact handleAction_inv hC1 hcpt h
  | doIncrement cid =>
    obtain ⟨hC1, hsome1, _, _, _, _⟩ := checkInsertionPoint_inv hC
    obtain ⟨cpt, hcpt⟩ := Option.isSome_iff_exists.mp hsome1
    have hrun : processOp s ad (.doIncrement cid) =
        (if cid ∈ (checkInsertionPoint s).doMap then
          insertActions (checkInsertionPoint s) 2 >>= fun t => .ok (t, ad)
         else .error "CHECK failed: DO context not present") := rfl
    by_cases hcid : cid ∈ (checkInsertionPoint s).doMap
    · obtain ⟨s2, h2, hC2, _, _, _, _, _, _⟩ := insertActions_inv 2 hC1 hcpt
      have hfinal : processOp s ad (.doIncrement cid) = .ok (s2, ad) := by
        rw [hrun, if_pos hcid, h2, bindE_ok]
      rw [hfinal] at h
      injection h with h2b
      injection h2b with ha hb
      rw [← ha]
      exact hC2
    · have hfinal : processOp s ad (.doIncrement cid) =
          .error "CHECK failed: DO context not present" := by
        rw [hrun, if_neg hcid]
      rw [hfinal] at h
      exact Except.noConfusion h
  | doCompare cid =>
    obtain ⟨hC1, hsome1, _, _, _, _⟩ := checkInsertionPoint_inv hC
    obtain ⟨cpt, hcpt⟩ := Option.isSome_iff_exists.mp hsome1
    have hrun : processOp s ad (.doCompare cid) =
        (if cid ∈ (checkInsertionPoint s).doMap then
          insertActions (checkInsertionPoint s) 2 >>= fun t => .ok (t, ad)
         else .error "CHECK failed: DO context not present") := rfl
    by_cases hcid : cid ∈ (checkInsertionPoint s).doMap
    · obtain ⟨s2, h2, hC2, _, _, _, _, _, _⟩ := insertActions_inv 2 hC1 hcpt
      have hfinal : processOp s ad (.doCompare cid) = .ok (s2, ad) := by
        rw [hrun, if_pos hcid, h2, bindE_ok]
      rw [hfinal] at h
      injection h with h2b
      injection h2b with ha hb
      rw [← ha]
      exact hC2
    · have hfinal : processOp s ad (.doCompare cid) =
          .error "CHECK failed: DO context not present" := by
        rw [hrun, if_neg hcid]
      rw [hfinal] at h
      exact Except.noConfusion h
  | beginC k cid counted => exact Except.noConfusion h
  | endC k cid counted =>
    have hrun : processOp s ad (.endC k cid counted) =
        processEnd s k cid counted >>= fun t => .ok (t, ad) := rfl
    rcases hpe : processEnd s k cid counted with e | s1
    · rw [hrun, hpe, bindE_err] at h
      exact Except.noConfusion h
    · rw [hrun, hpe, bindE_ok] at h
      injection h with h2b
      injection h2b with ha hb
      rw [← ha]
      exact processEnd_inv hC hpe

theorem insertActionsTop_inv {s s' : FState} {n : Nat} (hC : CInv s)
    (h : insertActions s n = .ok s') : CInv s' := by
  rcases hpt : s.insertPt with _ | b
  · cases n with
    | zero =>
      have he : s = s' := Except.ok.inj h
      rw [← he]
      exact hC
    | succ m =>
      have hins : insertStmt s .action = .error "CHECK failed: no insertion point" := by
        unfold insertStmt
        rw [hpt]
      have h2 : (insertStmt s .action >>= fun t => insertActions t m) = .ok s' := h
      rw [hins, bindE_err] at h2
      exact Except.noConfusion h2
  · obtain ⟨s2, h2, hC2, _, _, _, _, _, _⟩ := insertActions_inv n hC hpt
    rw [h2] at h
    have he : s2 = s' := Except.ok.inj h
    rw [← he]
    exact hC2

theorem processBegin_inv {s s' : FState} {k : CKind} {cid : Nat} {counted : Bool}
    (hC : CInv s) (h : processBegin s k cid counted = .ok s') : CInv s' := by
  cases k with
  | associate =>
    obtain ⟨s1, h1, hC1, hm1, hd1, hp1⟩ := enterRegion_inv hC
    obtain ⟨s2, h2, hC2, _, _, _, _, _, _⟩ := insertActions_inv 3 hC1 hp1
    have h3 : (enterRegion s >>= fun t => insertActions t 3) = .ok s' := h
    rw [h1, bindE_ok, h2] at h3
    have he : s2 = s' := Except.ok.inj h3
    rw [← he]
    exact hC2
  | blockK =>
    obtain ⟨s1, h1, hC1, _, _, _⟩ := enterRegion_inv hC
    have h2 : enterRegion s = .ok s' := h
    rw [h1] at h2
    have he : s1 = s' := Except.ok.inj h2
    rw [← he]
    exact hC1
  | changeTeam =>
    obtain ⟨s1, h1, hC1, _, _, _⟩ := enterRegion_inv hC
    have h2 : enterRegion s = .ok s' := h
    rw [h1] at h2
    have he : s1 = s' := Except.ok.inj h2
    rw [← he]
    exact hC1
  | selectRank =>
    obtain ⟨s1, h1, hC1, _, _, _⟩ := enterRegion_inv hC
    have h2 : enterRegion s = .ok s' := h
    rw [h1] at h2
    have he : s1 = s' := Except.ok.inj h2
    rw [← he]
    exact hC1
  | selectType =>
    obtain ⟨s1, h1, hC1, _, _, _⟩ := enterRegion_inv hC
    have h2 : enterRegion s = .ok s' := h
    rw [h1] at h2
    have he : s1 = s' := Except.ok.inj h2
    rw [← he]
    exact hC1
  | caseK => exact insertActionsTop_inv hC h
  | ifK => exact insertActionsTop_inv hC h
  | whereK => exact insertActionsTop_inv hC h
  | critical =>
    have he : s = s' := Except.ok.inj h
    rw [← he]
    exact hC
  | forallK =>
    have he : s = s' := Except.ok.inj h
    rw [← he]
    exact hC
  | doK =>
    obtain ⟨s1, h1, hC1, hm1, hd1, hp1⟩ := enterRegion_inv hC
    cases counted with
    | false =>
      have h2 : (enterRegion s >>= fun t => .ok t) = .ok s' := h
      rw [h1, bindE_ok] at h2
      have he : s1 = s' := Except.ok.inj h2
      rw [← he]
      exact hC1
    | true =>
      obtain ⟨s2, h2, hC2, _, _, _, _, _, _⟩ := insertActions_inv 5 hC1 hp1
      have h3 : (enterRegion s >>= fun t =>
          (insertActions t 5 >>= fun u => .ok { u with doMap := cid :: u.doMap })) = .ok s' := h
      rw [h1, bindE_ok, h2, bindE_ok] at h3
      have he : { s2 with doMap := cid :: s2.doMap } = s' := Except.ok.inj h3
      rw [← he]
      exact CInv_same hC2 rfl rfl rfl rfl rfl

theorem constructFIR_cons (s : FState) (ad : AnalysisData) (op : LinOp) (rest : List LinOp)
    (hop : ∀ k c b2, op ≠ .beginC k c b2) :
    constructFIR s ad (op :: rest) =
      processOp s ad op >>= fun p => constructFIR p.1 p.2 rest := by
  cases op <;> first
    | rfl
    | exact absurd rfl (hop _ _ _)

theorem constructFIR_beginLabel (s : FState) (ad : AnalysisData) (k : CKind)
    (cid : Nat) (counted : Bool) (l : Nat) (rest2 : List LinOp) :
    constructFIR s ad (.beginC k cid counted :: .label l :: rest2) =
      processBegin s k cid counted >>= fun t =>
        match t.insertPt with
        | none => .error "label bound to null insertion point"
        | some b => constructFIR { t with blockMap := if (t.blockMap.lookup l).isSome then t.blockMap else t.blockMap ++ [(l, b)] } ad rest2 := rfl

theorem constructFIR_beginOther (s : FState) (ad : AnalysisData) (k : CKind)
    (cid : Nat) (counted : Bool) (op2 : LinOp) (rest2 : List LinOp)
    (hop : ∀ l, op2 ≠ .label l) :
    constructFIR s ad (.beginC k cid counted :: op2 :: rest2) =
      processBegin s k cid counted >>= fun t => constructFIR t ad (op2 :: rest2) := by
  cases op2 <;> first
    | rfl
    | exact absurd rfl (hop _)

theorem constructFIR_beginNil (s : FState) (ad : AnalysisData) (k : CKind)
    (cid : Nat) (counted : Bool) :
    constructFIR s ad [.beginC k cid counted] =
      .error "dereference past the end of the op list" := rfl

theorem constructFIR_invN : ∀ (n : Nat) (ops : List LinOp), ops.length ≤ n →
    ∀ {s : FState} {ad : AnalysisData} {s' : FState} {ad' : AnalysisData},
      CInv s → constructFIR s ad ops = .ok (s', ad') → CInv s' := by
  intro n
  induction n with
  | zero =>
    intro ops hlen s ad s' ad' hC h
    have hnil : ops = [] := List.length_eq_zero.mp (Nat.le_zero.mp hlen)
    rw [hnil] at h
    have h2 : (Except.ok (s, ad) : Except String (FState × AnalysisData)) = .ok (s', ad') := h
    injection h2 with h3
    injection h3 with ha hb
    rw [← ha]
    exact hC
  | succ m ih =>
    intro ops hlen s ad s' ad' hC h
    rcases ops with _ | ⟨op, rest⟩
    · have h2 : (Except.ok (s, ad) : Except String (FState × AnalysisData)) = .ok (s', ad') := h
      injection h2 with h3
      injection h3 with ha hb
      rw [← ha]
      exact hC
    · by_cases hbc : ∃ k c b2, op = LinOp.beginC k c b2
      · obtain ⟨k, cid, counted, rfl⟩ := hbc
        rcases rest with _ | ⟨op2, rest2⟩
        · rw [constructFIR_beginNil] at h
          exact Except.noConfusion h
        · by_cases hlab : ∃ l, op2 = LinOp.label l
          · obtain ⟨l, rfl⟩ := hlab
            rw [constructFIR_beginLabel] at h
            rcases hpb : processBegin s k cid counted with e | s1
            · rw [hpb, bindE_err] at h
              exact Except.noConfusion h
            · rw [hpb, bindE_ok] at h
              have hC1 := processBegin_inv hC hpb
              rcases hpt : s1.insertPt with _ | b
              · rw [hpt] at h
                exact Except.noConfusion (show (Except.error "label bound to null insertion point" : Except String (FState × AnalysisData)) = .ok (s', ad') from h)
              · rw [hpt] at h
                have h3 : constructFIR { blocks := s1.blocks, nextBlock := s1.nextBlock, regions := s1.regions, nextRegion := s1.nextRegion, curRegion := s1.curRegion, insertPt := some b, blockMap := if (s1.blockMap.lookup l).isSome then s1.blockMap else s1.blockMap ++ [(l, b)], deferred := s1.deferred, doMap := s1.doMap } ad rest2 = .ok (s', ad') := h
                obtain ⟨blk, hl, _⟩ := hC1.curOk b hpt
                have hC2 := labelBind_inv hC1 l b (mem_keys.mpr ⟨blk, lookupA_mem hl⟩)
                have hC2b : CInv { blocks := s1.blocks, nextBlock := s1.nextBlock, regions := s1.regions, nextRegion := s1.nextRegion, curRegion := s1.curRegion, insertPt := some b, blockMap := if (s1.blockMap.lookup l).isSome then s1.blockMap else s1.blockMap ++ [(l, b)], deferred := s1.deferred, doMap := s1.doMap } := by
                  rw [← hpt]
                  exact hC2
                have hlen2 : rest2.length ≤ m := by
                  simp [List.length_cons] at hlen
                  omega
                exact ih rest2 hlen2 hC2b h3
          · have hop : ∀ l, op2 ≠ LinOp.label l := fun l he => hlab ⟨l, he⟩
            rw [constructFIR_beginOther s ad k cid counted op2 rest2 hop] at h
            rcases hpb : processBegin s k cid counted with e | s1
            · rw [hpb, bindE_err] at h
              exact Except.noConfusion h
            · rw [hpb, bindE_ok] at h
              have hC1 := processBegin_inv hC hpb
              have hlen2 : (op2 :: rest2).length ≤ m := by
                simp [List.length_cons] at hlen ⊢
                omega
              exact ih (op2 :: rest2) hlen2 hC1 h
      · have hop : ∀ k c b2, op ≠ LinOp.beginC k c b2 := fun k c b2 he => hbc ⟨k, c, b2, he⟩
        rw [constructFIR_cons s ad op rest hop] at h
        rcases hpo : processOp s ad op with e | pr
        · rw [hpo, bindE_err] at h
          exact Except.noConfusion h
        · obtain ⟨s1, ad1⟩ := pr
          rw [hpo, bindE_ok] at h
          have h3 : constructFIR s1 ad1 rest = .ok (s', ad') := h
          have hlen2 : rest.length ≤ m := by
            simp [List.length_cons] at hlen
            omega
          exact ih rest hlen2 (processOp_inv hC hpo) h3

theorem replaySet_CInv {s : FState} {bk : Nat} {blk : Block}
    (hB : BInv s) (hdf : s.deferred = [])
    (hlb : s.blocks.lookup bk = some blk) (htb : blk.terminated = false) :
    CInv { s with insertPt := some bk, curRegion := blk.region } := by
  refine ⟨⟨BInv_same hB rfl rfl rfl, ?_, ?_⟩, ?_, ?_⟩
  · intro c2 hc2
    have hc2b : c2 ∈ s.deferred := hc2
    rw [hdf] at hc2b
    exact absurd hc2b (List.not_mem_nil c2)
  · show (s.deferred.map Closure.block).Nodup
    rw [hdf]
    exact List.nodup_nil
  · intro b2 hb2
    have hbe : b2 = bk := by simpa using hb2.symm
    rw [hbe]
    exact ⟨blk, hlb, htb⟩
  · intro b2 hb2 c2 hc2
    have hc2b : c2 ∈ s.deferred := hc2
    rw [hdf] at hc2b
    exact absurd hc2b (List.not_mem_nil c2)

theorem replayClosure_inv {s : FState} {c : Closure} {s' : FState} {cs : List Closure}
    (hB : BInv s) (hdf : s.deferred = [])
    (hcur : unterminatedAt s c.block)
    (hrest : ∀ c2 ∈ cs, unterminatedAt s c2.block)
    (hne : ∀ c2 ∈ cs, c2.block ≠ c.block)
    (h : replayClosure s c = .ok s') :
    BInv s' ∧ (∀ c2 ∈ cs, unterminatedAt s' c2.block) ∧ s'.deferred = s.deferred := by
  cases c with
  | branchFix bk dest =>
    obtain ⟨blk, hlb, htb⟩ := hcur
    have hlb2 : s.blocks.lookup bk = some blk := hlb
    have h2 : (setInsertionPoint s bk >>= fun t =>
        match t.blockMap.lookup dest with
        | none => (.error "CHECK failed: deferred branch target unbound" : Except String FState)
        | some b => insertTerminator t (.branch b)) = .ok s' := h
    rw [setInsertionPoint_eq hlb2, bindE_ok] at h2
    have h3 : (match s.blockMap.lookup dest with
        | none => (.error "CHECK failed: deferred branch target unbound" : Except String FState)
        | some b => insertTerminator { s with insertPt := some bk, curRegion := blk.region } (.branch b)) = .ok s' := h2
    rcases hld : s.blockMap.lookup dest with _ | db
    · rw [hld] at h3
      exact Except.noConfusion (show (Except.error "CHECK failed: deferred branch target unbound" : Except String FState) = .ok s' from h3)
    · rw [hld] at h3
      have hC1 := replaySet_CInv hB hdf hlb2 htb
      have hsucc : ∀ d ∈ (IRStmt.branch db).succBlocks,
          d ∈ ({ s with insertPt := some bk, curRegion := blk.region } : FState).blocks.map Prod.fst := by
        intro d hd
        have hde : d = db := by simpa [IRStmt.succBlocks] using hd
        rw [hde]
        exact hB.mapKeys (dest, db) (lookupA_mem hld)
      obtain ⟨s2, h5, hS2, hm5, hd5, hp5, hr5, hn5, hk5, hpres5⟩ :=
        insertTerminator_SInv hC1.toSInv rfl (hC1.curOk _ rfl) (hC1.curFresh _ rfl) hsucc rfl
      have h4 : insertTerminator { s with insertPt := some bk, curRegion := blk.region } (.branch db) = .ok s' := h3
      rw [h5] at h4
      have he : s2 = s' := Except.ok.inj h4
      rw [← he]
      refine ⟨hS2.toBInv, ?_, ?_⟩
      · intro c2 hc2
        apply hpres5 c2.block (hne c2 hc2)
        exact unterminated_same rfl (hrest c2 hc2)
      · exact hd5
  | condFix bk t f =>
    obtain ⟨blk, hlb, htb⟩ := hcur
    have hlb2 : s.blocks.lookup bk = some blk := hlb
    have h2 : (setInsertionPoint s bk >>= fun u =>
        match u.blockMap.lookup t, u.blockMap.lookup f with
        | some tb, some fb => insertTerminator u (.condBranch tb fb)
        | _, _ => (.error "CHECK failed: deferred conditional target unbound" : Except String FState)) = .ok s' := h
    rw [setInsertionPoint_eq hlb2, bindE_ok] at h2
    have h3 : (match s.blockMap.lookup t, s.blockMap.lookup f with
        | some tb, some fb => insertTerminator { s with insertPt := some bk, curRegion := blk.region } (.condBranch tb fb)
        | _, _ => (.error "CHECK failed: deferred conditional target unbound" : Except String FState)) = .ok s' := h2
    rcases hlt : s.blockMap.lookup t with _ | tb
    · rw [hlt] at h3
      exact Except.noConfusion (show (Except.error "CHECK failed: deferred conditional target unbound" : Except String FState) = .ok s' from h3)
    · rcases hlf : s.blockMap.lookup f with _ | fb
      · rw [hlt, hlf] at h3
        exact Except.noConfusion (show (Except.error "CHECK failed: deferred conditional target unbound" : Except String FState) = .ok s' from h3)
      · rw [hlt, hlf] at h3
        have hC1 := replaySet_CInv hB hdf hlb2 htb
        have hsucc : ∀ d ∈ (IRStmt.condBranch tb fb).succBlocks,
            d ∈ ({ s with insertPt := some bk, curRegion := blk.region } : FState).blocks.map Prod.fst := by
          intro d hd
          have hde : d = tb ∨ d = fb := by simpa [IRStmt.succBlocks] using hd
          rcases hde with he | he <;> rw [he]
          · exact hB.mapKeys (t, tb) (lookupA_mem hlt)
          · exact hB.mapKeys (f, fb) (lookupA_mem hlf)
        obtain ⟨s2, h5, hS2, hm5, hd5, hp5, hr5, hn5, hk5, hpres5⟩ :=
          insertTerminator_SInv hC1.toSInv rfl (hC1.curOk _ rfl) (hC1.curFresh _ rfl) hsucc rfl
        have h4 : insertTerminator { s with insertPt := some bk, curRegion := blk.region } (.condBranch tb fb) = .ok s' := h3
        rw [h5] at h4
        have he : s2 = s' := Except.ok.inj h4
        rw [← he]
        refine ⟨hS2.toBInv, ?_, ?_⟩
        · intro c2 hc2
          apply hpres5 c2.block (hne c2 hc2)
          exact unterminated_same rfl (hrest c2 hc2)
        · exact hd5
  | switchFix bk dl ls =>
    obtain ⟨blk, hlb, htb⟩ := hcur
    have hlb2 : s.blocks.lookup bk = some blk := hlb
    have h2 : (setInsertionPoint s bk >>= fun u =>
        match u.blockMap.lookup dl, lookupAll u.blockMap ls with
        | some db, some cs2 => insertTerminator u (.switchTerm db cs2)
        | _, _ => (.error "map.find past the end: deferred switch target unbound" : Except String FState)) = .ok s' := h
    rw [setInsertionPoint_eq hlb2, bindE_ok] at h2
    have h3 : (match s.blockMap.lookup dl, lookupAll s.blockMap ls with
        | some db, some cs2 => insertTerminator { s with insertPt := some bk, curRegion := blk.region } (.switchTerm db cs2)
        | _, _ => (.error "map.find past the end: deferred switch target unbound" : Except String FState)) = .ok s' := h2
    rcases hld : s.blockMap.lookup dl with _ | db
    · rw [hld] at h3
      exact Except.noConfusion (show (Except.error "map.find past the end: deferred switch target unbound" : Except String FState) = .ok s' from h3)
    · rcases hla : lookupAll s.blockMap ls with _ | cs2
      · rw [hld, hla] at h3
        exact Except.noConfusion (show (Except.error "map.find past the end: deferred switch target unbound" : Except String FState) = .ok s' from h3)
      · rw [hld, hla] at h3
        have hC1 := replaySet_CInv hB hdf hlb2 htb
        have hsucc : ∀ d ∈ (IRStmt.switchTerm db cs2).succBlocks,
            d ∈ ({ s with insertPt := some bk, curRegion := blk.region } : FState).blocks.map Prod.fst := by
          intro d hd
          have hde : d = db ∨ d ∈ cs2 := by simpa [IRStmt.succBlocks] using hd
          rcases hde with he | he
          · rw [he]
            exact hB.mapKeys (dl, db) (lookupA_mem hld)
          · obtain ⟨l2, hlx⟩ := lookupAll_mem hla d he
            exact hB.mapKeys (l2, d) (lookupA_mem hlx)
        obtain ⟨s2, h5, hS2, hm5, hd5, hp5, hr5, hn5, hk5, hpres5⟩ :=
          insertTerminator_SInv hC1.toSInv rfl (hC1.curOk _ rfl) (hC1.curFresh _ rfl) hsucc rfl
        have h4 : insertTerminator { s with insertPt := some bk, curRegion := blk.region } (.switchTerm db cs2) = .ok s' := h3
        rw [h5] at h4
        have he : s2 = s' := Except.ok.inj h4
        rw [← he]
        refine ⟨hS2.toBInv, ?_, ?_⟩
        · intro c2 hc2
          apply hpres5 c2.block (hne c2 hc2)
          exact unterminated_same rfl (hrest c2 hc2)
        · exact hd5
  | igotoFixme bk =>
    obtain ⟨blk, hlb, htb⟩ := hcur
    have hlb2 : s.blocks.lookup bk = some blk := hlb
    have h2 : (setInsertionPoint s bk >>= fun u =>
        insertTerminator u (.indirectBr [])) = .ok s' := h
    rw [setInsertionPoint_eq hlb2, bindE_ok] at h2
    have h3 : insertTerminator { s with insertPt := some bk, curRegion := blk.region } (.indirectBr []) = .ok s' := h2
    have hC1 := replaySet_CInv hB hdf hlb2 htb
    have hsucc : ∀ d ∈ (IRStmt.indirectBr []).succBlocks,
        d ∈ ({ s with insertPt := some bk, curRegion := blk.region } : FState).blocks.map Prod.fst := by
      intro d hd
      simp [IRStmt.succBlocks] at hd
    obtain ⟨s2, h5, hS2, hm5, hd5, hp5, hr5, hn5, hk5, hpres5⟩ :=
      insertTerminator_SInv hC1.toSInv rfl (hC1.curOk _ rfl) (hC1.curFresh _ rfl) hsucc rfl
    rw [h5] at h3
    have he : s2 = s' := Except.ok.inj h3
    rw [← he]
    refine ⟨hS2.toBInv, ?_, ?_⟩
    · intro c2 hc2
      apply hpres5 c2.block (hne c2 hc2)
      exact unterminated_same rfl (hrest c2 hc2)
    · exact hd5

theorem go_inv : ∀ (cs : List Closure) (s : FState), BInv s → s.deferred = [] →
    (∀ c ∈ cs, unterminatedAt s c.block) → ((cs.map Closure.block)).Nodup →
    ∀ {s' : FState}, drawRemainingArcs.go cs s = .ok s' → BInv s' := by
  intro cs
  induction cs with
  | nil =>
    intro s hB _ _ _ s' h
    have he : s = s' := Except.ok.inj h
    rw [← he]
    exact hB
  | cons c cs ih =>
    intro s hB hdf hun hnd s' h
    have h2 : (replayClosure s c >>= fun t => drawRemainingArcs.go cs t) = .ok s' := h
    rcases hrc : replayClosure s c with e | s1
    · rw [hrc, bindE_err] at h2
      exact Except.noConfusion h2
    · rw [hrc, bindE_ok] at h2
      have hnd2 := List.nodup_cons.mp hnd
      have hne : ∀ c2 ∈ cs, c2.block ≠ c.block := by
        intro c2 hc2 he2
        exact hnd2.1 (he2 ▸ List.mem_map.mpr ⟨c2, hc2, rfl⟩)
      obtain ⟨hB1, hun1, hd1⟩ := replayClosure_inv hB hdf
        (hun c (List.mem_cons_self _ _)) (fun c2 hc2 => hun c2 (List.mem_cons_of_mem _ hc2))
        hne hrc
      exact ih s1 hB1 (hd1.trans hdf) hun1 hnd2.2 h2

theorem drawRemainingArcs_inv {s s' : FState} (hS : SInv s)
    (h : drawRemainingArcs s = .ok s') : BInv s' := by
  have h2 : drawRemainingArcs.go s.deferred { s with deferred := [] } = .ok s' := h
  refine go_inv s.deferred { s with deferred := [] } (BInv_same hS.toBInv rfl rfl rfl) rfl ?_ ?_ h2
  · intro c hc
    exact unterminated_same rfl (hS.closuresOk c hc)
  · exact hS.closuresNodup

theorem CInv_init : CInv FState.init := by
  refine ⟨⟨⟨?_, ?_, ?_, ?_, ?_, ?_, ?_⟩, ?_, ?_⟩, ?_, ?_⟩
  · show ∀ p ∈ FState.init.blocks, p.1 < FState.init.nextBlock
    decide
  · show ((FState.init.blocks.map Prod.fst)).Nodup
    decide
  · show ∀ p ∈ FState.init.blocks, ∀ q ∈ FState.init.blocks,
      (q.1 ∈ p.2.termSucc ↔ p.1 ∈ q.2.preds)
    decide
  · show ∀ p ∈ FState.init.blocks, p.2.preds.Nodup
    decide
  · show ∀ p ∈ FState.init.blocks, ∀ d ∈ p.2.termSucc, d ∈ FState.init.blocks.map Prod.fst
    decide
  · show ∀ p ∈ FState.init.blocks, ∀ d ∈ p.2.preds, d ∈ FState.init.blocks.map Prod.fst
    decide
  · show ∀ q ∈ FState.init.blockMap, q.2 ∈ FState.init.blocks.map Prod.fst
    decide
  · intro c hc
    exact absurd hc (List.not_mem_nil c)
  · exact List.nodup_nil
  · intro b hb
    have hbe : b = 0 := by simpa [FState.init] using hb.symm
    rw [hbe]
    exact ⟨_, rfl, rfl⟩
  · intro b hb c hc
    exact absurd hc (List.not_mem_nil c)

/-- C3: after a procedure is fully lowered and every deferred fixup closure
has been replayed, the control-flow graph is well formed: for every pair of
basic blocks of the procedure, the second appears among the successor blocks
of the first's terminator exactly when the first appears in the second's
predecessor list, and no predecessor list contains a duplicate entry.  The
discipline behind it: `InsertTerminator` adds the cursor block as a
predecessor of every successor of the inserted terminator, `addPred`
de-duplicates, each block is terminated at most once, and every deferred
closure snapshots a distinct, still-unterminated block. -/
theorem claim_C3 (prog : List ExecPart) (s : FState) (ad : AnalysisData)
    (h : lowerProcedure prog = .ok (s, ad)) :
    predsConsistent s ∧ noDupPreds s := by
  have h2 : (walkList prog AnalysisData.init >>= fun p =>
      (constructFIR FState.init p.2 p.1 >>= fun q =>
        (drawRemainingArcs q.1 >>= fun t => .ok (t, q.2)))) = .ok (s, ad) := h
  rcases hw : walkList prog AnalysisData.init with e | pr
  · rw [hw, bindE_err] at h2
    exact Except.noConfusion h2
  · obtain ⟨ops, ad1⟩ := pr
    rw [hw, bindE_ok] at h2
    have h3 : (constructFIR FState.init ad1 ops >>= fun q =>
        (drawRemainingArcs q.1 >>= fun t => .ok (t, q.2))) = .ok (s, ad) := h2
    rcases hcf : constructFIR FState.init ad1 ops with e | pr2
    · rw [hcf, bindE_err] at h3
      exact Except.noConfusion h3
    · obtain ⟨s1, ad2⟩ := pr2
      rw [hcf, bindE_ok] at h3
      have h4 : (drawRemainingArcs s1 >>= fun t =>
          (.ok (t, ad2) : Except String (FState × AnalysisData))) = .ok (s, ad) := h3
      rcases hdr : drawRemainingArcs s1 with e | s2
      · rw [hdr, bindE_err] at h4
        exact Except.noConfusion h4
      · rw [hdr, bindE_ok] at h4
        injection h4 with h5
        injection h5 with ha hb
        have hC1 := constructFIR_invN ops.length ops (Nat.le_refl _) CInv_init hcf
        have hB2 := drawRemainingArcs_inv hC1.toSInv hdr
        rw [← ha]
        exact ⟨hB2.consistent, hB2.predsNodup⟩

/-- Witness for C3: the one-statement procedure lowers to a single
terminator-free block, and the resulting graph satisfies the property. -/
theorem claim_C3_witness :
    lowerProcedure tinyProc = .ok ({ blocks := [(0, { region := 0, stmts := [.action, .action, .action], preds := [] })], nextBlock := 1, regions := [(0, none)], nextRegion := 1, curRegion := 0, insertPt := some 0, blockMap := [], deferred := [], doMap := [] }, { labelMap := [], counter := 0, nameStack := [], assignMap := [] }) ∧
    (predsConsistent { blocks := [(0, { region := 0, stmts := [.action, .action, .action], preds := [] })], nextBlock := 1, regions := [(0, none)], nextRegion := 1, curRegion := 0, insertPt := some 0, blockMap := [], deferred := [], doMap := [] } ∧ noDupPreds { blocks := [(0, { region := 0, stmts := [.action, .action, .action], preds := [] })], nextBlock := 1, regions := [(0, none)], nextRegion := 1, curRegion := 0, insertPt := some 0, blockMap := [], deferred := [], doMap := [] }) :=
  ⟨rfl, claim_C3 tinyProc { blocks := [(0, { region := 0, stmts := [.action, .action, .action], preds := [] })], nextBlock := 1, regions := [(0, none)], nextRegion := 1, curRegion := 0, insertPt := some 0, blockMap := [], deferred := [], doMap := [] } { labelMap := [], counter := 0, nameStack := [], assignMap := [] } rfl⟩

/-- C2, evaluated at the failing input `do; exit; end do` (an unnamed EXIT in
an anonymous DO): the linearizer allocates backedge label 0, increment label
1, entry label 2 and exit label 3, and the op emitted for the EXIT statement
(position 8 of the stream) is `Goto 1` — the *increment* label — because
`NearestEnclosingDoConstruct` returns the third component of the name-stack
entry for named and unnamed CYCLE and EXIT alike.  The claim requires
`Goto 3`, the exit label.  Indeed the whole op stream is identical to the one
produced for an unnamed CYCLE in the same construct. -/
theorem claim_C2_bug :
    walkList exitInDo AnalysisData.init = walkList cycleInDo AnalysisData.init ∧
    (∃ ad, walkList exitInDo AnalysisData.init =
      .ok ([.beginC .doK 0 false, .gotoOp 0, .label 1, .doIncrement 0, .label 0,
            .doCompare 0, .condGoto 2 3 none, .label 2, .gotoOp 1, .gotoOp 1,
            .endC .doK 0 false, .label 3], ad)) ∧
    (1 : Nat) ≠ 3 :=
  ⟨rfl, ⟨_, rfl⟩, by decide⟩

/-- C8, evaluated at the failing input (the begin/end marker pair of a SELECT
RANK construct): the begin marker enters child region 1 (enclosing region 0),
but the end marker leaves the current region at 1 — the `LinearEndConstruct`
visitor has no SELECT RANK case.  The same pair for SELECT TYPE restores the
current region to 0 as the claim demands for all six kinds. -/
theorem claim_C8_bug :
    (∃ p, constructFIR FState.init AnalysisData.init selectRankOps = .ok p ∧
      p.1.curRegion = 1 ∧ p.1.regions.lookup 1 = some (some 0)) ∧
    (∃ p, constructFIR FState.init AnalysisData.init selectTypeOps = .ok p ∧
      p.1.curRegion = 0) :=
  ⟨⟨_, rfl, rfl, rfl⟩, ⟨_, rfl, rfl⟩⟩

/-- C9, evaluated at the failing input
`100 x=…; 200 x=…; assign 100 to lbl; assign 200 to lbl; goto lbl`
(symbol 5 is `lbl`): the accumulated `ASSIGN` set for the symbol holds the raw
*source* labels 100 and 200, while the interned linear labels of those source
labels are 0 and 1.  `AddOrQueueIGoto` therefore looks 100 and 200 up in the
label-to-block map, finds neither, defers, and the deferred closure emits an
indirect branch with an *empty* target list, so the block holding the
assigned GOTO (block 2) ends in `IndirectBr []` and has no successors —
not the two successor blocks the claim requires. -/
theorem claim_C9_bug :
    (lowerProcedure assignedGotoProg).toOption.map (fun p => GetAssign p.2 5) =
      some [100, 200] ∧
    (lowerProcedure assignedGotoProg).toOption.map
        (fun p => p.2.labelMap.lookup 100) = some (some 0) ∧
    (lowerProcedure assignedGotoProg).toOption.map
        (fun p => p.2.labelMap.lookup 200) = some (some 1) ∧
    (lowerProcedure assignedGotoProg).toOption.map
        (fun p => (p.1.blocks.lookup 2).map (fun b => b.stmts.getLast?)) =
      some (some (some (.indirectBr []))) ∧
    (lowerProcedure assignedGotoProg).toOption.map
        (fun p => (p.1.blocks.lookup 2).map Block.termSucc) = some (some []) := by
  refine ⟨?_, ?_, ?_, ?_, ?_⟩ <;> decide

/-- Counterexample for C1, at the three-specifier READ of scenario S5
(`read(u,*,err=10,eor=20,end=30) x` followed by the three labelled targets):
the linearizer does emit the `SwitchingIO` op carrying the fresh next label 3
and the interned labels 0, 1, 2 of the source labels 10, 20, 30 — but after
CFG construction the block holding the I/O operation (block 0) has exactly
*one* outgoing edge (successor list `[1]`, the block of the next label), not
four: the err/eor/end labels of the op are dropped when the switch terminator
is built (`AddOrQueueSwitch` receives empty value and label lists). -/
theorem claim_C1_counterexample :
    (walkList readThreeLabels AnalysisData.init).toOption.map (fun q => q.1.head?) =
      some (some (.ioSwitch 3 (some 0) (some 1) (some 2))) ∧
    (lowerProcedure readThreeLabels).toOption.map
        (fun p => (p.1.blocks.lookup 0).map Block.termSucc) = some (some [1]) ∧
    (lowerProcedure readThreeLabels).toOption.map
        (fun p => p.1.blockMap.lookup 3) = some (some 1) ∧
    ([1] : List Nat).length ≠ 4 := by
  refine ⟨?_, ?_, ?_, ?_⟩ <;> decide

end FIR

end F18
